import Mathlib

/-! # Layered method registry of `yep/models/methods.go`

A shallow embedding of the method registry (`methodsCollection`, `methodInfo`,
`methodLayer`, `CreateMethod`, `ExtendMethod`) and theorems about it.

Modelling decisions, all visible in the definitions below:

* Go maps are association lists read with `find` and written with `put`
  (replace the binding of the key, or add one).
* Pointers to `methodLayer` are indices into the append-only list
  `State.layers`; `nil` is `none`.  The closure allocated by
  `wrapFunctionForMethodLayer` is an index into `State.closures`, which stores
  the `fnctVal` the closure captured.
* A `methodInfo` is reachable only through the `cache` entry it was stored
  under, and a `methodsCollection` only through its model, so both are stored
  inline; writing through the pointer is writing the entry back.
* `tools.LogAndPanic` and the panics of package `reflect` end the call: an
  operation returns `Outcome.panic` with the message and the state at that
  moment.
-/

namespace Yep

/-! ## Go maps -/

/-- Map lookup `m[k]`; `none` when the key is absent. -/
def find {κ ν : Type} [DecidableEq κ] : List (κ × ν) → κ → Option ν
  | [], _ => none
  | (k', v) :: m, k => if k' = k then some v else find m k

/-- Map assignment `m[k] = v`: replaces the binding of `k` or adds one. -/
def put {κ ν : Type} [DecidableEq κ] : List (κ × ν) → κ → ν → List (κ × ν)
  | [], k, v => [(k, v)]
  | (k', v') :: m, k, v => if k' = k then (k, v) :: m else (k', v') :: put m k v

/-! ## The part of package `reflect` the registry uses -/

/-- A parameter or result type: its identity and whether it implements the
`RecordSet` interface (`Type.Implements`). -/
structure Ty where
  name : String
  implementsRecordSet : Bool
deriving DecidableEq, Repr

/-- A `reflect.Type`. For a function type `ins` lists what `In(0)`, `In(1)`, ...
return and `outs` what `Out(0)`, `Out(1)`, ... return, so `NumIn` and `NumOut`
are the lengths. -/
inductive GoType where
  | plain (t : Ty)
  | func (ins outs : List Ty) (variadic : Bool)
  | ptr (elem : GoType)
deriving DecidableEq, Repr

/-- The kinds the registry distinguishes. -/
inductive Kind where
  | Func
  | Ptr
  | Other
deriving DecidableEq, Repr

/-- The method `Type.Kind`. -/
def GoType.Kind : GoType → Kind
  | .plain _ => .Other
  | .func _ _ _ => .Func
  | .ptr _ => .Ptr

/-- An `interface{}` argument: dynamic type and data word (for a function the
closure pointer, 0 for a nil function; for a pointer the address it holds). -/
structure Iface where
  typ : GoType
  word : Nat
deriving DecidableEq, Repr

/-- A `reflect.Value` as a map key compares it: type, data pointer, and the
flag bit set on values obtained through a pointer (`flagAddr`). -/
structure Value where
  typ : GoType
  ptr : Nat
  flagAddr : Bool
deriving DecidableEq, Repr

namespace reflect

/-- The function `reflect.ValueOf`. -/
def ValueOf (i : Iface) : Value :=
  { typ := i.typ, ptr := i.word, flagAddr := false }

/-- The method `Value.Elem` on a pointer: the addressable value pointed to;
`none` is the panic on a value that is not a pointer. -/
def Elem (v : Value) : Option Value :=
  match v.typ with
  | .ptr e => some { typ := e, ptr := v.ptr, flagAddr := true }
  | _ => none

end reflect

/-- The type `models.RecordCollection`. -/
def RecordCollection : Ty := { name := "models.RecordCollection", implementsRecordSet := true }

/-- The type of `methodLayerFunction`:
`func(RecordCollection, ...interface{}) interface{}`. -/
def methodLayerFunctionType : GoType :=
  .func [RecordCollection, { name := "[]interface {}", implementsRecordSet := false }]
    [{ name := "interface {}", implementsRecordSet := false }] true

/-! ## Data model -/

/-- The struct `methodLayer`; `methInfo` is the back reference to the owning
method, given as (model name, method name). -/
structure methodLayer where
  methInfo : String × String
  funcValue : Value
deriving DecidableEq, Repr

/-- The struct `methodInfo`; `mi` is the back reference to the owning model,
given as its name. -/
structure methodInfo where
  name : String
  mi : String
  methodType : GoType
  topLayer : Option Nat
  nextLayer : List (Nat × Option Nat)
deriving DecidableEq, Repr

/-- The struct `methodsCollection`. -/
structure methodsCollection where
  cache : List (String × methodInfo)
  cacheByFunc : List (Value × Nat)
  bootstrapped : Bool
deriving DecidableEq, Repr

/-- Modelled from the spec: the struct `modelInfo` of the model registry, of
which the registry code reads only the fields `name` and `methods`. -/
structure modelInfo where
  name : String
  methods : methodsCollection
deriving DecidableEq, Repr

/-- The memory the registration API works on. `modelRegistry` is modelled from
the spec: `resolveModel(name) -> (modelHandle, found)`. -/
structure State where
  modelRegistry : List (String × modelInfo)
  layers : List methodLayer
  closures : List Value
deriving DecidableEq, Repr

/-- A pure call: a value, or a panic with its message. -/
inductive Res (α : Type) where
  | ok (a : α)
  | panic (msg : String)
deriving DecidableEq, Repr

/-- A call that may write: the memory it leaves, after a return or at a panic. -/
inductive Outcome (σ : Type) where
  | ok (s : σ)
  | panic (msg : String) (s : σ)
deriving DecidableEq, Repr

/-- The memory a call leaves behind. -/
def Outcome.state {σ : Type} : Outcome σ → σ
  | .ok s => s
  | .panic _ s => s

/-- Whether the call returned normally. -/
def Outcome.isOk {σ : Type} : Outcome σ → Bool
  | .ok _ => true
  | .panic _ _ => false

/-! ## methodsCollection -/

/-- The method `methodsCollection.get`. -/
def methodsCollection.get (mc : methodsCollection) (methodName : String) : Option methodInfo :=
  find mc.cache methodName

/-- The method `methodsCollection.getByFunc`: the key is
`reflect.ValueOf(fnctPtr).Elem()`. -/
def methodsCollection.getByFunc (mc : methodsCollection) (fnctPtr : Iface) : Res (Option Nat) :=
  match reflect.Elem (reflect.ValueOf fnctPtr) with
  | none => .panic "reflect: call of reflect.Value.Elem on non-pointer Value"
  | some key => .ok (find mc.cacheByFunc key)

/-- The method `methodsCollection.set`; `layers` is the memory in which
`methInfo.topLayer` is dereferenced. -/
def methodsCollection.set (mc : methodsCollection) (layers : List methodLayer)
    (methodName : String) (methInfo : methodInfo) : Outcome methodsCollection :=
  let mc1 : methodsCollection := { mc with cache := put mc.cache methodName methInfo }
  match methInfo.topLayer with
  | none => .panic "invalid memory address or nil pointer dereference" mc1
  | some p =>
    match layers[p]? with
    | none => .panic "invalid memory address or nil pointer dereference" mc1
    | some top => .ok { mc1 with cacheByFunc := put mc1.cacheByFunc top.funcValue p }

/-- The method `methodsCollection.addLayer`. -/
def methodsCollection.addLayer (mc : methodsCollection) (fnVal : Value) (methLayer : Nat) :
    methodsCollection :=
  { mc with cacheByFunc := put mc.cacheByFunc fnVal methLayer }

/-- The function `newMethodsCollection`. -/
def newMethodsCollection : methodsCollection :=
  { cache := [], cacheByFunc := [], bootstrapped := false }

/-! ## methodInfo -/

/-- The function `wrapFunctionForMethodLayer`, as far as registration sees it:
it allocates the closure `methodLayerFunction` capturing `fnctVal` and returns
the `reflect.Value` of that closure. -/
def wrapFunctionForMethodLayer (closures : List Value) (fnctVal : Value) : Value × List Value :=
  ({ typ := methodLayerFunctionType, ptr := closures.length, flagAddr := false },
    closures ++ [fnctVal])

/-- The method `methodInfo.addMethodLayer`, called on the `methodInfo` stored
under `methodName` in the collection of the model `mi` registered as
`modelName` (`methInfo.mi` is that model: `newMethodInfo` sets it and nothing
reassigns it). -/
def methodInfo.addMethodLayer (s : State) (modelName methodName : String) (mi : modelInfo)
    (methInfo : methodInfo) (val : Value) : State :=
  let w := wrapFunctionForMethodLayer s.closures val
  let ml : methodLayer := { funcValue := w.1, methInfo := (mi.name, methInfo.name) }
  let p := s.layers.length
  let methInfo1 : methodInfo :=
    { methInfo with nextLayer := put methInfo.nextLayer p methInfo.topLayer, topLayer := some p }
  let methods1 : methodsCollection :=
    { mi.methods with cache := put mi.methods.cache methodName methInfo1 }
  let methods2 := methods1.addLayer ml.funcValue p
  { modelRegistry := put s.modelRegistry modelName { mi with methods := methods2 },
    layers := s.layers ++ [ml],
    closures := w.2 }

/-- The method `methodInfo.getNextLayer`; a key that is absent (or `nil`)
gives the `nil` pointer. -/
def methodInfo.getNextLayer (methInfo : methodInfo) (methodLayer : Option Nat) : Option Nat :=
  match methodLayer with
  | none => none
  | some p => (find methInfo.nextLayer p).join

/-- The function `newMethodInfo`; returns the new `methodInfo` and the memory
holding its first layer. -/
def newMethodInfo (s : State) (mi : modelInfo) (methodName : String) (val : Value) :
    Res (methodInfo × State) :=
  match val.typ with
  | .func [] _ _ => .panic "reflect: Func index out of bounds"
  | .func (t0 :: _) _ _ =>
    if t0.implementsRecordSet = false then
      .panic "Function must have a `RecordSet` as first argument to be used as method."
    else
      let w := wrapFunctionForMethodLayer s.closures val
      let p := s.layers.length
      let methInfo : methodInfo :=
        { mi := mi.name, name := methodName, methodType := val.typ, nextLayer := [],
          topLayer := some p }
      .ok (methInfo,
        { s with layers := s.layers ++ [{ funcValue := w.1, methInfo := (mi.name, methodName) }],
                 closures := w.2 })
  | _ => .panic "reflect: NumIn of non-func type"

/-! ## Registration API -/

/-- The function `checkMethodAndFnctType`. -/
def checkMethodAndFnctType (s : State) (modelName _methodName : String) (fnct : Iface) :
    Res modelInfo :=
  match find s.modelRegistry modelName with
  | none => .panic "Unknown model"
  | some mi =>
    if mi.methods.bootstrapped then
      .panic "Create/ExtendMethod must be run before BootStrap"
    else if (reflect.ValueOf fnct).typ.Kind ≠ Kind.Func then
      .panic "fnct parameter must be a function"
    else .ok mi

/-- The function `CreateMethod`. -/
def CreateMethod (s : State) (modelName methodName : String) (fnct : Iface) : Outcome State :=
  match checkMethodAndFnctType s modelName methodName fnct with
  | .panic e => .panic e s
  | .ok mi =>
    match mi.methods.get methodName with
    | some _ => .panic "Call to CreateMethod with an existing method name" s
    | none =>
      match newMethodInfo s mi methodName (reflect.ValueOf fnct) with
      | .panic e => .panic e s
      | .ok (methInfo, s1) =>
        match mi.methods.set s1.layers methodName methInfo with
        | .ok mc =>
          .ok { s1 with modelRegistry := put s1.modelRegistry modelName { mi with methods := mc } }
        | .panic e mc =>
          .panic e
            { s1 with modelRegistry := put s1.modelRegistry modelName { mi with methods := mc } }

/-- The loop of `ExtendMethod` over `i = 1 .. methodType.NumIn()-1`: the first
panic it raises, if any. `In(i)` out of range is the panic of `reflect`. -/
def checkIns (ins vins : List Ty) : Option String :=
  (List.range' 1 (ins.length - 1)).findSome? fun i =>
    match ins[i]?, vins[i]? with
    | some a, some b => if a ≠ b then some "Function signature does not match" else none
    | _, _ => some "reflect: Func index out of bounds"

/-- The return type test of `ExtendMethod`:
`NumOut() > 0 && methodType.Out(0) != val.Type().Out(0)`. -/
def checkOut (outs vouts : List Ty) : Option String :=
  match outs with
  | [] => none
  | o :: _ =>
    match vouts with
    | [] => some "reflect: Func index out of bounds"
    | vo :: _ => if o ≠ vo then some "Function return type does not match" else none

/-- The function `ExtendMethod`. -/
def ExtendMethod (s : State) (modelName methodName : String) (fnct : Iface) : Outcome State :=
  match checkMethodAndFnctType s modelName methodName fnct with
  | .panic e => .panic e s
  | .ok mi =>
    match mi.methods.get methodName with
    | none => .panic "Call to ExtendMethod on non existant method" s
    | some methInfo =>
      let val := reflect.ValueOf fnct
      match methInfo.methodType, val.typ with
      | .func ins outs _, .func vins vouts _ =>
        match checkIns ins vins with
        | some e => .panic e s
        | none =>
          match checkOut outs vouts with
          | some e => .panic e s
          | none => .ok (methodInfo.addMethodLayer s modelName methodName mi methInfo val)
      | _, _ => .panic "reflect: NumIn of non-func type" s

/-! ## Walking a chain -/

/-- The layers met from pointer `l` by applying `getNextLayer` until it gives
`nil`; `none` when `fuel` steps were not enough. -/
def walk (methInfo : methodInfo) : Nat → Option Nat → Option (List Nat)
  | _, none => some []
  | 0, some _ => none
  | fuel + 1, some p => (walk methInfo fuel (methInfo.getNextLayer (some p))).map (p :: ·)

/-- The function value a layer wraps: the `fnctVal` captured by the closure
that is the layer's `funcValue`. -/
def wrapped (s : State) (l : Nat) : Option Value :=
  match s.layers[l]? with
  | none => none
  | some ml => s.closures[ml.funcValue.ptr]?

/-- The memory `CreateMethod` leaves when it returns: one new closure, one new
layer at address `s.layers.length`, a new `methodInfo` under `methodName`, and
the layer indexed under the closure. -/
def created (s : State) (modelName methodName : String) (mi : modelInfo) (fnct : Iface) : State :=
  let fv : Value := { typ := methodLayerFunctionType, ptr := s.closures.length, flagAddr := false }
  let methInfo : methodInfo :=
    { name := methodName, mi := mi.name, methodType := fnct.typ,
      topLayer := some s.layers.length, nextLayer := [] }
  { modelRegistry := put s.modelRegistry modelName
      { mi with methods :=
        { cache := put mi.methods.cache methodName methInfo,
          cacheByFunc := put mi.methods.cacheByFunc fv s.layers.length,
          bootstrapped := mi.methods.bootstrapped } },
    layers := s.layers ++ [{ methInfo := (mi.name, methodName), funcValue := fv }],
    closures := s.closures ++ [reflect.ValueOf fnct] }

/-- The calls `ExtendMethod(modelName, methodName, f)` for the functions of the
list, in order, stopping at the first panic. -/
def extendAll (s : State) (modelName methodName : String) : List Iface → Outcome State
  | [] => .ok s
  | f :: fs =>
    match ExtendMethod s modelName methodName f with
    | .ok s1 => extendAll s1 modelName methodName fs
    | .panic e s1 => .panic e s1

/-- The walk from the top layer of the method terminates within `n` steps, it
meets allocated layers only, and these wrap the function values `vs`, in this
order. -/
def ChainIs (s : State) (modelName methodName : String) (n : Nat) (vs : List Value) : Prop :=
  ∃ mi methInfo ls,
    find s.modelRegistry modelName = some mi ∧
    mi.methods.get methodName = some methInfo ∧
    walk methInfo n methInfo.topLayer = some ls ∧
    (∀ l ∈ ls, l < s.layers.length) ∧
    ls.map (wrapped s) = vs.map some

/-- Layer `b` is reached from layer `a` by following `getNextLayer` zero or
more times. -/
inductive Reaches (methInfo : methodInfo) : Nat → Nat → Prop where
  | refl (a : Nat) : Reaches methInfo a a
  | step (a b c : Nat) :
      methInfo.getNextLayer (some a) = some b → Reaches methInfo b c → Reaches methInfo a c

/-- The layer is a value of the identity index `cacheByFunc`. -/
def Indexed (mc : methodsCollection) (l : Nat) : Prop :=
  ∃ k, find mc.cacheByFunc k = some l

/-- The layer is reached from the top layer of a method info of `cache`. -/
def InChain (mc : methodsCollection) (l : Nat) : Prop :=
  ∃ m methInfo t,
    mc.get m = some methInfo ∧ methInfo.topLayer = some t ∧ Reaches methInfo t l

/-- What holds of a collection in a memory with `nl` layers and `nc` closures
allocated: index keys are allocated adapter closures, top layers and next layers are
allocated layers, and the identity index holds exactly the layers of the
chains. -/
structure ModelOk (nl nc : Nat) (mc : methodsCollection) : Prop where
  keys : ∀ k l, find mc.cacheByFunc k = some l → k.ptr < nc
  adapters : ∀ k l, find mc.cacheByFunc k = some l →
    k.typ = methodLayerFunctionType ∧ k.flagAddr = false
  tops : ∀ m methInfo, mc.get m = some methInfo → ∃ t, methInfo.topLayer = some t ∧ t < nl
  edges : ∀ m methInfo a b, mc.get m = some methInfo →
    methInfo.getNextLayer (some a) = some b → b < nl
  consistent : ∀ l, Indexed mc l ↔ InChain mc l

/-- The memories obtained from models with empty collections by calls of
`CreateMethod` and `ExtendMethod`, whether they return or panic. -/
inductive Reachable : State → Prop where
  | init (reg : List (String × modelInfo)) :
      (∀ e ∈ reg, e.2.methods = newMethodsCollection) →
      Reachable { modelRegistry := reg, layers := [], closures := [] }
  | create (s : State) (modelName methodName : String) (fnct : Iface) :
      Reachable s → Reachable (CreateMethod s modelName methodName fnct).state
  | extend (s : State) (modelName methodName : String) (fnct : Iface) :
      Reachable s → Reachable (ExtendMethod s modelName methodName fnct).state

/-- Every collection of the registry is in order for the memory's size. -/
def Inv (s : State) : Prop :=
  ∀ modelName mi, find s.modelRegistry modelName = some mi →
    ModelOk s.layers.length s.closures.length mi.methods

/-! ## Invoking a layer -/

/-- The Go values that reach an adapter or leave it. -/
inductive GoVal where
  /-- A `RecordCollection` value, named by a number. -/
  | record (id : Nat)
  /-- The zero value of a type: `reflect.New(t).Elem()`. -/
  | zero (t : Ty)
  /-- The zero value of a struct type whose field 0 was set to `v`. -/
  | withField0 (t : Ty) (v : GoVal)
  /-- Any other value, of dynamic type `t`. -/
  | data (t : Ty) (n : Nat)
  /-- A slice of type `t`. -/
  | slice (t : Ty) (elems : List GoVal)
  /-- The `nil` interface value. -/
  | nilIface

/-- The dynamic type of a value; `none` for the nil interface, of which
`reflect.ValueOf` gives the zero `Value`. -/
def GoVal.typeOf : GoVal → Option Ty
  | .record _ => some RecordCollection
  | .zero t => some t
  | .withField0 t _ => some t
  | .data t _ => some t
  | .slice t _ => some t
  | .nilIface => none

/-- What `reflect` finds at field 0 of a type. -/
inductive Field0 where
  /-- The type is not a struct: `Value.Field` panics. -/
  | notStruct
  /-- A struct without fields: `Value.Field(0)` panics. -/
  | noField
  /-- A struct whose field 0 has type `typ`; `exported` tells whether a value
  obtained through the field may be set. -/
  | field (typ : Ty) (exported : Bool)
deriving DecidableEq, Repr

/-- The declarations the adapter meets that the registry file does not hold:
the shape of the parameter types, assignability between distinct types, the
element type of slice types, and what the Go function behind a function value
does with its arguments (it returns its results or panics). -/
structure Env where
  field0 : Ty → Field0
  assignable : Ty → Ty → Bool
  elem : Ty → Option Ty
  run : Value → List GoVal → Res (List GoVal)

/-- The method `Type.AssignableTo`: identical types, or what the declarations
allow. -/
def AssignableTo (env : Env) (x t : Ty) : Bool :=
  decide (x = t) || env.assignable x t

/-- A call with the calls it made to wrapped functions, in order, and its
result. -/
structure Traced (α : Type) where
  calls : List (Value × List GoVal)
  res : Res α

/-- Every value has a type assignable to the parameter type at its position. -/
def allAssignable (env : Env) (vals : List GoVal) (tys : List Ty) : Bool :=
  (vals.zip tys).all fun p =>
    match p.1.typeOf with
    | some t => AssignableTo env t p.2
    | none => false

namespace reflect

/-- The method `Value.Call`: the test for a nil function (a function value
whose data pointer is 0), the tests on the number and the types of the
arguments, the packing of the variadic arguments into a slice, and the call
itself. It is applied to the function values callers registered; the adapter
closures, numbered from 0 in `State.closures`, are run by `invokeLayer`. -/
def Call (env : Env) (v : Value) (args : List GoVal) : Traced (List GoVal) :=
  match v.typ with
  | .func ins _ variadic =>
    let n := if variadic then ins.length - 1 else ins.length
    if v.ptr = 0 then
      { calls := [], res := .panic "reflect.Value.Call: call of nil function" }
    else if args.length < n then
      { calls := [], res := .panic "reflect: Call with too few input arguments" }
    else if variadic = false ∧ n < args.length then
      { calls := [], res := .panic "reflect: Call with too many input arguments" }
    else if args.any (fun a => a.typeOf.isNone) then
      { calls := [], res := .panic "reflect: Call using zero Value argument" }
    else if allAssignable env (args.take n) ins = false then
      { calls := [], res := .panic "reflect: Call using argument of another type" }
    else if variadic then
      match ins.getLast?, ins.getLast?.bind env.elem with
      | some st, some el =>
        if allAssignable env (args.drop n) (List.replicate (args.length - n) el) = false then
          { calls := [], res := .panic "reflect: cannot use argument of another type in Call" }
        else
          { calls := [(v, args.take n ++ [GoVal.slice st (args.drop n)])],
            res := env.run v (args.take n ++ [GoVal.slice st (args.drop n)]) }
      | _, _ => { calls := [], res := .panic "reflect: Elem of invalid type" }
    else
      { calls := [(v, args)], res := env.run v args }
  | _ => { calls := [], res := .panic "reflect: call of reflect.Value.Call on non-func Value" }

end reflect

/-- The closure `methodLayerFunction` of `wrapFunctionForMethodLayer`, called
with the handle `rc` and the arguments `args`; `fnctVal` is the function
value the closure captured. -/
def methodLayerFunction (env : Env) (fnctVal : Value) (rc : Nat) (args : List GoVal) :
    Traced (Option GoVal) :=
  match fnctVal.typ with
  | .func (argZeroType :: _) _ _ =>
    let first : Res GoVal :=
      if argZeroType = RecordCollection then .ok (.record rc)
      else
        match env.field0 argZeroType with
        | .notStruct => .panic "reflect: call of reflect.Value.Field on non-struct Value"
        | .noField => .panic "reflect: Field index out of range"
        | .field ft exported =>
          if exported = false then
            .panic "reflect: reflect.Value.Set using value obtained using unexported field"
          else if AssignableTo env RecordCollection ft = false then
            .panic "reflect.Set: value of type models.RecordCollection is not assignable"
          else .ok (.withField0 argZeroType (.record rc))
    match first with
    | .panic e => { calls := [], res := .panic e }
    | .ok a0 =>
      let r := reflect.Call env fnctVal (a0 :: args)
      { calls := r.calls,
        res := match r.res with
          | .panic e => .panic e
          | .ok res => .ok res.head? }
  | .func [] _ _ => { calls := [], res := .panic "reflect: Func index out of bounds" }
  | _ => { calls := [], res := .panic "reflect: In of non-func type" }

/-- Calling `funcValue` of the layer at address `l`: the adapter closure,
with the function value it captured. -/
def invokeLayer (env : Env) (s : State) (l : Nat) (rc : Nat) (args : List GoVal) :
    Traced (Option GoVal) :=
  match wrapped s l with
  | none => { calls := [], res := .panic "invalid memory address or nil pointer dereference" }
  | some fnctVal => methodLayerFunction env fnctVal rc args

/-- The first argument the adapter builds for a first parameter of type
`t0`: the handle itself for `RecordCollection`, else the zero value of `t0`
with field 0 set to the handle. -/
def firstArg (t0 : Ty) (rc : Nat) : GoVal :=
  if t0 = RecordCollection then .record rc else .withField0 t0 (.record rc)

/-- The first parameter type follows the convention of the adapter: it is
`RecordCollection`, or a struct whose field 0 is exported and can hold a
`RecordCollection`. -/
def Conforms (env : Env) (t0 : Ty) : Prop :=
  t0 = RecordCollection ∨
    ∃ ft, env.field0 t0 = .field ft true ∧ AssignableTo env RecordCollection ft = true

/-- The arguments are as many as the parameters, none of them is the nil
interface value (each has a dynamic type), and the type of each is assignable
to the parameter at its position. -/
def ArgsMatch (env : Env) (args : List GoVal) (params : List Ty) : Prop :=
  List.Forall₂ (fun a p => ∃ t, a.typeOf = some t ∧ AssignableTo env t p = true) args params

/-! ## Concrete registrations used to instantiate the theorems -/

/-- The type `int`. -/
def intTy : Ty := { name := "int", implementsRecordSet := false }

/-- The type `string`. -/
def stringTy : Ty := { name := "string", implementsRecordSet := false }

/-- One known model, "Invoice", with an empty open collection. -/
def invoiceState : State :=
  { modelRegistry := [("Invoice", { name := "Invoice", methods := newMethodsCollection })],
    layers := [], closures := [] }

/-- One known model, "Invoice", whose collection is locked. -/
def lockedState : State :=
  { modelRegistry :=
      [("Invoice", { name := "Invoice", methods := { newMethodsCollection with bootstrapped := true } })],
    layers := [], closures := [] }

/-- A function `func(RecordCollection) int`. -/
def totalFn : Iface := { typ := .func [RecordCollection] [intTy] false, word := 100 }

/-- Another function `func(RecordCollection) int`. -/
def surchargeFn : Iface := { typ := .func [RecordCollection] [intTy] false, word := 101 }

/-- A third function `func(RecordCollection) int`. -/
def doubleFn : Iface := { typ := .func [RecordCollection] [intTy] false, word := 102 }

/-- A value that is not a function: an `int`. -/
def notAFunction : Iface := { typ := .plain intTy, word := 42 }

/-- The memory after `CreateMethod("Invoice", "Total", totalFn)`. -/
def totalState : State := (CreateMethod invoiceState "Invoice" "Total" totalFn).state

/-- A function `func(RecordCollection, string) int`: the signature of
`totalFn` with one more trailing parameter. -/
def extraArgFn : Iface := { typ := .func [RecordCollection, stringTy] [intTy] false, word := 103 }

/-- A function `func(RecordCollection)` without result. -/
def touchFn : Iface := { typ := .func [RecordCollection] [] false, word := 104 }

/-- A function `func(RecordCollection) (int, string)`. -/
def pairFn : Iface := { typ := .func [RecordCollection] [intTy, stringTy] false, word := 105 }

/-- A function `func(RecordCollection) (int, int)`. -/
def otherPairFn : Iface := { typ := .func [RecordCollection] [intTy, intTy] false, word := 106 }

/-- The pointer `&totalFn`: the variable holding `totalFn` lives at address 200. -/
def totalFnPtr : Iface := { typ := .ptr totalFn.typ, word := 200 }

/-- The memory after `CreateMethod("Invoice", "Touch", touchFn)`. -/
def touchState : State := (CreateMethod invoiceState "Invoice" "Touch" touchFn).state

/-- The memory after `CreateMethod("Invoice", "Pair", pairFn)`. -/
def pairState : State := (CreateMethod invoiceState "Invoice" "Pair" pairFn).state

/-- The memory after extending "Total" with `surchargeFn` and then `doubleFn`. -/
def layeredState : State :=
  (extendAll totalState "Invoice" "Total" [surchargeFn, doubleFn]).state

/-- The memory after extending "Total" with `surchargeFn`. -/
def surchargedState : State := (ExtendMethod totalState "Invoice" "Total" surchargeFn).state

/-- The collection of "Invoice" in `layeredState`. -/
def layeredMethods : methodsCollection :=
  match find layeredState.modelRegistry "Invoice" with
  | some mi => mi.methods
  | none => newMethodsCollection

/-- A function `func(int) int`: its first parameter is neither the handle nor
a wrapper of it, and does not implement `RecordSet`. -/
def badFirstFn : Iface := { typ := .func [intTy] [intTy] false, word := 107 }

/-- A function `func() int` without parameters. -/
def noParamFn : Iface := { typ := .func [] [intTy] false, word := 108 }

/-- A registry that does not know the model "Invoice". -/
def emptyState : State := { modelRegistry := [], layers := [], closures := [] }

/-- The method exists on an unlocked model, with this signature and its own
name. -/
def SigIs (s : State) (modelName methodName : String) (t : GoType) : Prop :=
  ∃ mi methInfo,
    find s.modelRegistry modelName = some mi ∧ mi.methods.bootstrapped = false ∧
    mi.methods.get methodName = some methInfo ∧
    methInfo.methodType = t ∧ methInfo.name = methodName

/-- The keys of every predecessor map are allocated layers. -/
def NextKeysOk (s : State) : Prop :=
  ∀ modelName mi methodName methInfo a b,
    find s.modelRegistry modelName = some mi → mi.methods.get methodName = some methInfo →
    find methInfo.nextLayer a = some b → a < s.layers.length

/-- The pointer reached by `k` applications of `getNextLayer`. -/
def hops (methInfo : methodInfo) : Nat → Option Nat → Option Nat
  | 0, l => l
  | k + 1, l => hops methInfo k (methInfo.getNextLayer l)

/-- The record of registrations with `fnct` added in front for the method
`methodName` of `modelName`. -/
def pushed (regs : String → String → List Iface) (modelName methodName : String) (fnct : Iface) :
    String → String → List Iface :=
  fun M m => if M = modelName ∧ m = methodName then fnct :: regs M m else regs M m

/-- The record of registrations after a call whose outcome is `o`: the
function is added when the call returned. -/
def recorded (o : Outcome State) (regs : String → String → List Iface)
    (modelName methodName : String) (fnct : Iface) : String → String → List Iface :=
  if o.isOk = true then pushed regs modelName methodName fnct else regs

/-- The memories obtained from models with empty collections by calls of
`CreateMethod` and `ExtendMethod`, together with the functions of the calls
that returned, per model and method, the most recent first. -/
inductive Registered : State → (String → String → List Iface) → Prop where
  | init (reg : List (String × modelInfo)) :
      (∀ e ∈ reg, e.2.methods = newMethodsCollection) →
      Registered { modelRegistry := reg, layers := [], closures := [] } (fun _ _ => [])
  | create (s : State) (regs : String → String → List Iface)
      (modelName methodName : String) (fnct : Iface) :
      Registered s regs →
      Registered (CreateMethod s modelName methodName fnct).state
        (recorded (CreateMethod s modelName methodName fnct) regs modelName methodName fnct)
  | extend (s : State) (regs : String → String → List Iface)
      (modelName methodName : String) (fnct : Iface) :
      Registered s regs →
      Registered (ExtendMethod s modelName methodName fnct).state
        (recorded (ExtendMethod s modelName methodName fnct) regs modelName methodName fnct)

/-- Every next layer has a smaller address than the layer it follows. -/
def DescOk (s : State) : Prop :=
  ∀ modelName mi methodName methInfo a b,
    find s.modelRegistry modelName = some mi → mi.methods.get methodName = some methInfo →
    methInfo.getNextLayer (some a) = some b → b < a

/-- A method that does not exist has no registration, and the chain of a
method that exists wraps its registered functions, the most recent first. -/
def HistOk (s : State) (regs : String → String → List Iface) : Prop :=
  ∀ modelName mi methodName, find s.modelRegistry modelName = some mi →
    (mi.methods.get methodName = none → regs modelName methodName = []) ∧
    (∀ methInfo, mi.methods.get methodName = some methInfo →
      ChainIs s modelName methodName (regs modelName methodName).length
        ((regs modelName methodName).map reflect.ValueOf))

/-- The record of registrations that led to `layeredState`. -/
def layeredRegs : String → String → List Iface :=
  recorded (ExtendMethod surchargedState "Invoice" "Total" doubleFn)
    (recorded (ExtendMethod totalState "Invoice" "Total" surchargeFn)
      (recorded (CreateMethod invoiceState "Invoice" "Total" totalFn) (fun _ _ => [])
        "Invoice" "Total" totalFn)
      "Invoice" "Total" surchargeFn)
    "Invoice" "Total" doubleFn

/-- The method info of "Total" in `layeredState`. -/
def layeredTotal : methodInfo :=
  { name := "Total", mi := "Invoice", methodType := totalFn.typ, topLayer := some 2,
    nextLayer := [(1, some 0), (2, some 1)] }

/-- A struct type `InvoiceSet` that embeds a `RecordCollection` as its first
field. -/
def invoiceSetTy : Ty := { name := "InvoiceSet", implementsRecordSet := true }

/-- The interface type `RecordSet` itself. -/
def recordSetTy : Ty := { name := "models.RecordSet", implementsRecordSet := true }

/-- The slice type `[]int`. -/
def intSliceTy : Ty := { name := "[]int", implementsRecordSet := false }

/-- A function `func(InvoiceSet, string) int`. -/
def wrapperFn : Iface := { typ := .func [invoiceSetTy, stringTy] [intTy] false, word := 109 }

/-- A function `func(RecordSet) int`: its first parameter has the interface
type. -/
def ifaceFn : Iface := { typ := .func [recordSetTy] [intTy] false, word := 110 }

/-- A variadic function `func(RecordCollection, ...int) int`. -/
def variadicFn : Iface := { typ := .func [RecordCollection, intSliceTy] [intTy] true, word := 111 }

/-- Declarations for the examples: `InvoiceSet` is a struct whose field 0 is
an embedded `RecordCollection`, no other type is a struct, `[]int` has
elements of type `int`, and every function returns the number of its
arguments, or nothing when it has no result. -/
def exampleEnv : Env :=
  { field0 := fun t => if t = invoiceSetTy then .field RecordCollection true else .notStruct,
    assignable := fun _ _ => false,
    elem := fun t => if t = intSliceTy then some intTy else none,
    run := fun v args =>
      match v.typ with
      | .func _ [] _ => .ok []
      | _ => .ok [.data intTy args.length] }

/-- The memory after `CreateMethod("Invoice", "Total", ifaceFn)`. -/
def ifaceState : State := (CreateMethod invoiceState "Invoice" "Total" ifaceFn).state

/-- The pointer `&surchargeFn`. -/
def surchargeFnPtr : Iface := { typ := .ptr surchargeFn.typ, word := 201 }

/-- The pointer `&doubleFn`. -/
def doubleFnPtr : Iface := { typ := .ptr doubleFn.typ, word := 202 }

/-- Modelled from the spec: the layer functions of the "Invoice"/"Total"
scenario. A base function returns an amount. A delegating function looks up
its own layer with `getByFunc` given the reference to itself, asks the method
info of that layer for the next layer with `getNextLayer`, calls the adapter
of the next layer with the handle it received, and returns that value plus
`add`, times `mul`. -/
inductive Body where
  | amount (b : Nat)
  | delegate (self : Iface) (modelName : String) (add mul : Nat)

/-- Modelled from the spec: what the layer functions of the scenario do when
called, in the memory `s`; `fuel` bounds the depth of delegation. -/
def scenarioRun (s : State) (bodyOf : Value → Option Body) :
    Nat → Value → List GoVal → Res (List GoVal)
  | 0, _, _ => .panic "out of fuel"
  | fuel + 1, v, args =>
    match bodyOf v with
    | none => .panic "unknown function"
    | some (.amount b) => .ok [.data intTy b]
    | some (.delegate self modelName add mul) =>
      match args.head?, find s.modelRegistry modelName with
      | some (.record rc), some mi =>
        match mi.methods.getByFunc self with
        | .panic e => .panic e
        | .ok none => .panic "invalid memory address or nil pointer dereference"
        | .ok (some ml) =>
          match s.layers[ml]? with
          | none => .panic "invalid memory address or nil pointer dereference"
          | some layer =>
            match (find s.modelRegistry layer.methInfo.1).bind
                fun mi' => mi'.methods.get layer.methInfo.2 with
            | none => .panic "invalid memory address or nil pointer dereference"
            | some methInfo =>
              match methInfo.getNextLayer (some ml) with
              | none => .panic "invalid memory address or nil pointer dereference"
              | some next =>
                match (invokeLayer
                    { field0 := fun _ => .notStruct, assignable := fun _ _ => false,
                      elem := fun _ => none, run := scenarioRun s bodyOf fuel }
                    s next rc []).res with
                | .ok (some (.data _ v)) => .ok [.data intTy ((v + add) * mul)]
                | .ok _ => .panic "interface conversion"
                | .panic e => .panic e
      | _, _ => .panic "unknown model"

/-- Modelled from the spec: the functions of the scenario: `totalFn` returns
the amount `b`, `surchargeFn` delegates and adds 10, `doubleFn` delegates and
doubles. -/
def scenarioBodies (b : Nat) (v : Value) : Option Body :=
  if v = reflect.ValueOf totalFn then some (.amount b)
  else if v = reflect.ValueOf surchargeFn then some (.delegate surchargeFnPtr "Invoice" 10 1)
  else if v = reflect.ValueOf doubleFn then some (.delegate doubleFnPtr "Invoice" 0 2)
  else none

/-- The declarations of the scenario in the memory `s`. -/
def scenarioEnv (s : State) (b fuel : Nat) : Env :=
  { field0 := fun _ => .notStruct, assignable := fun _ _ => false, elem := fun _ => none,
    run := scenarioRun s (scenarioBodies b) fuel }

/-- The interface type `error`. -/
def errorTy : Ty := { name := "error", implementsRecordSet := false }

/-- A function `func(RecordCollection, error) int`. -/
def errFn : Iface := { typ := .func [RecordCollection, errorTy] [intTy] false, word := 112 }

/-- The nil function of type `func(RecordCollection) int`: its data word is 0. -/
def nilFn : Iface := { typ := .func [RecordCollection] [intTy] false, word := 0 }

/-! ## Lemmas on maps -/

theorem find_put_self {κ ν : Type} [DecidableEq κ] (m : List (κ × ν)) (k : κ) (v : ν) :
    find (put m k v) k = some v := by
  induction m with
  | nil => simp [put, find]
  | cons e m ih =>
    obtain ⟨k', v'⟩ := e
    by_cases h : k' = k
    · simp [put, find, h]
    · simp [put, find, h, ih]

theorem find_put_ne {κ ν : Type} [DecidableEq κ] (m : List (κ × ν)) (k k' : κ) (v : ν)
    (hne : k' ≠ k) : find (put m k v) k' = find m k' := by
  induction m with
  | nil =>
    have : ¬ k = k' := fun e => hne e.symm
    simp [put, find, this]
  | cons e m ih =>
    obtain ⟨k0, v0⟩ := e
    have h'' : ¬ k = k' := fun e => hne e.symm
    by_cases h : k0 = k
    · subst h
      simp [put, find, h'']
    · by_cases h2 : k0 = k'
      · subst h2
        simp [put, find, h]
      · simp [put, find, h, h2, ih]

/-! ## When the registration calls return -/

theorem checkMethodAndFnctType_ok_iff (s : State) (modelName methodName : String) (fnct : Iface)
    (mi : modelInfo) :
    checkMethodAndFnctType s modelName methodName fnct = .ok mi ↔
      find s.modelRegistry modelName = some mi ∧ mi.methods.bootstrapped = false ∧
        fnct.typ.Kind = Kind.Func := by
  unfold checkMethodAndFnctType
  cases hreg : find s.modelRegistry modelName with
  | none => simp
  | some mi0 =>
    by_cases hb : mi0.methods.bootstrapped = true
    · simp only [hb, if_true]
      constructor
      · intro h; cases h
      · rintro ⟨h1, h2, -⟩
        cases h1
        rw [hb] at h2
        cases h2
    · by_cases hk : fnct.typ.Kind = Kind.Func
      · simp only [hb, reflect.ValueOf, hk]
        constructor
        · intro h
          simp at h
          subst h
          simpa using hb
        · rintro ⟨h1, -, -⟩
          cases h1
          simp
      · simp only [hb, reflect.ValueOf]
        constructor
        · intro h
          simp [hk] at h
        · rintro ⟨-, -, h3⟩
          exact absurd h3 hk

theorem checkMethodAndFnctType_panic_state (s : State) (modelName methodName : String)
    (fnct : Iface) (mi : modelInfo) (hreg : find s.modelRegistry modelName = some mi)
    (hlock : mi.methods.bootstrapped = true) :
    checkMethodAndFnctType s modelName methodName fnct =
      .panic "Create/ExtendMethod must be run before BootStrap" := by
  simp [checkMethodAndFnctType, hreg, hlock]

theorem ExtendMethod_ok_iff (s s' : State) (modelName methodName : String) (fnct : Iface) :
    ExtendMethod s modelName methodName fnct = .ok s' ↔
      ∃ mi methInfo ins outs v vins vouts vv,
        find s.modelRegistry modelName = some mi ∧ mi.methods.bootstrapped = false ∧
        mi.methods.get methodName = some methInfo ∧
        methInfo.methodType = .func ins outs v ∧ fnct.typ = .func vins vouts vv ∧
        checkIns ins vins = none ∧ checkOut outs vouts = none ∧
        s' = methodInfo.addMethodLayer s modelName methodName mi methInfo
          (reflect.ValueOf fnct) := by
  constructor
  · intro h
    unfold ExtendMethod at h
    cases hc : checkMethodAndFnctType s modelName methodName fnct with
    | panic e => simp [hc] at h
    | ok mi =>
      simp only [hc] at h
      obtain ⟨hreg, hopen, -⟩ := (checkMethodAndFnctType_ok_iff _ _ _ _ _).1 hc
      cases hg : mi.methods.get methodName with
      | none => simp [hg] at h
      | some methInfo =>
        simp only [hg] at h
        cases hmt : methInfo.methodType with
        | plain t => simp [hmt] at h
        | ptr e => simp [hmt] at h
        | func ins outs v =>
          cases hvt : fnct.typ with
          | plain t => simp [hmt, reflect.ValueOf, hvt] at h
          | ptr e => simp [hmt, reflect.ValueOf, hvt] at h
          | func vins vouts vv =>
            simp only [hmt, reflect.ValueOf, hvt] at h
            cases hi : checkIns ins vins with
            | some e => simp [hi] at h
            | none =>
              simp only [hi] at h
              cases ho : checkOut outs vouts with
              | some e => simp [ho] at h
              | none =>
                simp only [ho] at h
                refine ⟨mi, methInfo, ins, outs, v, vins, vouts, vv, hreg, hopen, hg, hmt,
                  rfl, hi, ho, ?_⟩
                simp only [Outcome.ok.injEq] at h
                rw [← h]
                simp [reflect.ValueOf, hvt]
  · rintro ⟨mi, methInfo, ins, outs, v, vins, vouts, vv, hreg, hopen, hg, hmt, hvt, hi, ho, rfl⟩
    have hc : checkMethodAndFnctType s modelName methodName fnct = .ok mi :=
      (checkMethodAndFnctType_ok_iff _ _ _ _ _).2 ⟨hreg, hopen, by simp [hvt, GoType.Kind]⟩
    unfold ExtendMethod
    simp [hc, hg, hmt, reflect.ValueOf, hvt, hi, ho]

theorem CreateMethod_ok_iff (s s' : State) (modelName methodName : String) (fnct : Iface) :
    CreateMethod s modelName methodName fnct = .ok s' ↔
      ∃ mi t0 ins outs v,
        find s.modelRegistry modelName = some mi ∧ mi.methods.bootstrapped = false ∧
        mi.methods.get methodName = none ∧
        fnct.typ = .func (t0 :: ins) outs v ∧ t0.implementsRecordSet = true ∧
        s' = created s modelName methodName mi fnct := by
  constructor
  · intro h
    unfold CreateMethod at h
    cases hc : checkMethodAndFnctType s modelName methodName fnct with
    | panic e => simp [hc] at h
    | ok mi =>
      simp only [hc] at h
      obtain ⟨hreg, hopen, -⟩ := (checkMethodAndFnctType_ok_iff _ _ _ _ _).1 hc
      cases hg : mi.methods.get methodName with
      | some methInfo => simp [hg] at h
      | none =>
        simp only [hg] at h
        cases hvt : fnct.typ with
        | plain t => simp [newMethodInfo, reflect.ValueOf, hvt] at h
        | ptr e => simp [newMethodInfo, reflect.ValueOf, hvt] at h
        | func vins vouts vv =>
          cases vins with
          | nil => simp [newMethodInfo, reflect.ValueOf, hvt] at h
          | cons t0 ins =>
            by_cases hrs : t0.implementsRecordSet = true
            · refine ⟨mi, t0, ins, vouts, vv, hreg, hopen, hg, rfl, hrs, ?_⟩
              simp [newMethodInfo, reflect.ValueOf, hvt, hrs, methodsCollection.set,
                wrapFunctionForMethodLayer] at h
              rw [← h]
              simp [created, reflect.ValueOf, hvt]
            · simp [newMethodInfo, reflect.ValueOf, hvt, hrs] at h
  · rintro ⟨mi, t0, ins, outs, v, hreg, hopen, hg, hvt, hrs, rfl⟩
    have hc : checkMethodAndFnctType s modelName methodName fnct = .ok mi :=
      (checkMethodAndFnctType_ok_iff _ _ _ _ _).2 ⟨hreg, hopen, by simp [hvt, GoType.Kind]⟩
    unfold CreateMethod
    simp [hc, hg, newMethodInfo, reflect.ValueOf, hvt, hrs, methodsCollection.set,
      wrapFunctionForMethodLayer, created]

/-! ## Chains -/

theorem walk_congr (m m' : methodInfo) :
    ∀ (n : Nat) (start : Option Nat) (ls : List Nat),
      walk m n start = some ls →
      (∀ l ∈ ls, m'.getNextLayer (some l) = m.getNextLayer (some l)) →
      walk m' n start = some ls := by
  intro n
  induction n with
  | zero =>
    intro start ls h _
    cases start with
    | none => simpa [walk] using h
    | some p => simp [walk] at h
  | succ n ih =>
    intro start ls h hagree
    cases start with
    | none => simpa [walk] using h
    | some p =>
      simp only [walk, Option.map_eq_some'] at h
      obtain ⟨rest, hrest, rfl⟩ := h
      have hp : m'.getNextLayer (some p) = m.getNextLayer (some p) :=
        hagree p (List.mem_cons_self _ _)
      have := ih (m.getNextLayer (some p)) rest hrest
        (fun l hl => hagree l (List.mem_cons_of_mem _ hl))
      simp [walk, hp, this]

theorem wrapped_append (s s' : State) (a : List methodLayer) (b : List Value)
    (hl : s'.layers = s.layers ++ a) (hc : s'.closures = s.closures ++ b)
    (l : Nat) (v : Value) (h : wrapped s l = some v) : wrapped s' l = some v := by
  unfold wrapped at h ⊢
  cases hml : s.layers[l]? with
  | none => simp [hml] at h
  | some ml =>
    simp only [hml] at h
    have hlt : l < s.layers.length := by
      by_contra hge
      rw [List.getElem?_eq_none (Nat.le_of_not_lt hge)] at hml
      cases hml
    have hlt2 : ml.funcValue.ptr < s.closures.length := by
      by_contra hge
      rw [List.getElem?_eq_none (Nat.le_of_not_lt hge)] at h
      cases h
    rw [hl, List.getElem?_append_left hlt, hml]
    simp only
    rw [hc, List.getElem?_append_left hlt2]
    exact h

theorem ChainIs_create (s s' : State) (modelName methodName : String) (fnct : Iface)
    (h : CreateMethod s modelName methodName fnct = .ok s') :
    ChainIs s' modelName methodName 1 [reflect.ValueOf fnct] := by
  obtain ⟨mi, t0, ins, outs, v, -, -, -, -, -, rfl⟩ := (CreateMethod_ok_iff _ _ _ _ _).1 h
  refine ⟨_, _, [s.layers.length], find_put_self _ _ _, find_put_self _ _ _, ?_, ?_, ?_⟩
  · simp [walk, methodInfo.getNextLayer, find]
  · simp [created]
  · simp [wrapped, created]

theorem ChainIs_extend (s s' : State) (modelName methodName : String) (fnct : Iface)
    (n : Nat) (vs : List Value)
    (hchain : ChainIs s modelName methodName n vs)
    (h : ExtendMethod s modelName methodName fnct = .ok s') :
    ChainIs s' modelName methodName (n + 1) (reflect.ValueOf fnct :: vs) := by
  obtain ⟨mi, methInfo, ls, hreg, hget, hwalk, hlt, hwr⟩ := hchain
  obtain ⟨mi0, methInfo0, ins, outs, v, vins, vouts, vv, hreg0, -, hex0, -, -, -, -, rfl⟩ :=
    (ExtendMethod_ok_iff _ _ _ _ _).1 h
  rw [hreg] at hreg0
  cases hreg0
  rw [hget] at hex0
  cases hex0
  refine ⟨_, _, s.layers.length :: ls, find_put_self _ _ _, find_put_self _ _ _, ?_, ?_, ?_⟩
  · have hnext : ∀ l ∈ ls,
        methodInfo.getNextLayer
          { methInfo with
            nextLayer := put methInfo.nextLayer s.layers.length methInfo.topLayer,
            topLayer := some s.layers.length } (some l) = methInfo.getNextLayer (some l) := by
      intro l hl
      have hne : l ≠ s.layers.length := Nat.ne_of_lt (hlt l hl)
      simp [methodInfo.getNextLayer, find_put_ne _ _ _ _ hne]
    have hw := walk_congr methInfo _ n methInfo.topLayer ls hwalk hnext
    simp only [walk, methodInfo.getNextLayer, find_put_self, Option.join, Option.some_bind, id]
    rw [hw]
    rfl
  · intro l hl
    simp only [methodInfo.addMethodLayer, List.length_append, List.length_singleton]
    rcases List.mem_cons.1 hl with rfl | hl'
    · exact Nat.lt_succ_self _
    · exact Nat.lt_succ_of_lt (hlt l hl')
  · simp only [List.map_cons]
    congr 1
    · simp [wrapped, methodInfo.addMethodLayer, wrapFunctionForMethodLayer]
    · have : ∀ (xs : List Nat) (ws : List Value), xs.map (wrapped s) = ws.map some →
          xs.map (wrapped (methodInfo.addMethodLayer s modelName methodName mi methInfo
            (reflect.ValueOf fnct))) = ws.map some := by
        intro xs
        induction xs with
        | nil => intro ws hws; simpa using hws
        | cons x xs ihx =>
          intro ws hws
          cases ws with
          | nil => simp at hws
          | cons w ws =>
            simp only [List.map_cons, List.cons.injEq] at hws ⊢
            exact ⟨wrapped_append s _ _ _ rfl rfl x w hws.1, ihx ws hws.2⟩
      exact this ls vs hwr

theorem ChainIs_extendAll (modelName methodName : String) :
    ∀ (fs : List Iface) (s s' : State) (n : Nat) (vs : List Value),
      ChainIs s modelName methodName n vs →
      extendAll s modelName methodName fs = .ok s' →
      ChainIs s' modelName methodName (n + fs.length)
        ((fs.map reflect.ValueOf).reverse ++ vs) := by
  intro fs
  induction fs with
  | nil =>
    intro s s' n vs hchain h
    simp only [extendAll, Outcome.ok.injEq] at h
    subst h
    simpa using hchain
  | cons f fs ih =>
    intro s s' n vs hchain h
    simp only [extendAll] at h
    cases hx : ExtendMethod s modelName methodName f with
    | panic e s1 => simp [hx] at h
    | ok s1 =>
      simp only [hx] at h
      have h1 := ChainIs_extend s s1 modelName methodName f n vs hchain hx
      have h2 := ih s1 s' (n + 1) (reflect.ValueOf f :: vs) h1 h
      have e1 : n + 1 + fs.length = n + (f :: fs).length := by
        simp only [List.length_cons]; omega
      have e2 : (fs.map reflect.ValueOf).reverse ++ reflect.ValueOf f :: vs =
          ((f :: fs).map reflect.ValueOf).reverse ++ vs := by
        simp
      rw [e1, e2] at h2
      exact h2

/-! ## Panics leave the memory as it was -/

theorem CreateMethod_panic_state (s s1 : State) (modelName methodName : String) (fnct : Iface)
    (e : String) (h : CreateMethod s modelName methodName fnct = .panic e s1) : s1 = s := by
  unfold CreateMethod at h
  cases hc : checkMethodAndFnctType s modelName methodName fnct with
  | panic e0 =>
    simp only [hc, Outcome.panic.injEq] at h
    exact h.2.symm
  | ok mi =>
    simp only [hc] at h
    cases hg : mi.methods.get methodName with
    | some methInfo =>
      simp only [hg, Outcome.panic.injEq] at h
      exact h.2.symm
    | none =>
      simp only [hg] at h
      cases hvt : fnct.typ with
      | plain t =>
        simp only [newMethodInfo, reflect.ValueOf, hvt, Outcome.panic.injEq] at h
        exact h.2.symm
      | ptr e =>
        simp only [newMethodInfo, reflect.ValueOf, hvt, Outcome.panic.injEq] at h
        exact h.2.symm
      | func vins vouts vv =>
        cases vins with
        | nil =>
          simp only [newMethodInfo, reflect.ValueOf, hvt, Outcome.panic.injEq] at h
          exact h.2.symm
        | cons t0 ins =>
          by_cases hrs : t0.implementsRecordSet = true
          · simp [newMethodInfo, reflect.ValueOf, hvt, hrs, methodsCollection.set,
              wrapFunctionForMethodLayer] at h
          · simp only [Bool.not_eq_true] at hrs
            simp only [newMethodInfo, reflect.ValueOf, hvt, hrs, if_true,
              Outcome.panic.injEq] at h
            exact h.2.symm

theorem ExtendMethod_panic_state (s s1 : State) (modelName methodName : String) (fnct : Iface)
    (e : String) (h : ExtendMethod s modelName methodName fnct = .panic e s1) : s1 = s := by
  unfold ExtendMethod at h
  cases hc : checkMethodAndFnctType s modelName methodName fnct with
  | panic e0 =>
    simp only [hc, Outcome.panic.injEq] at h
    exact h.2.symm
  | ok mi =>
    simp only [hc] at h
    cases hg : mi.methods.get methodName with
    | none =>
      simp only [hg, Outcome.panic.injEq] at h
      exact h.2.symm
    | some methInfo =>
      simp only [hg] at h
      cases hmt : methInfo.methodType with
      | plain t =>
        simp only [hmt, Outcome.panic.injEq] at h
        exact h.2.symm
      | ptr e =>
        simp only [hmt, Outcome.panic.injEq] at h
        exact h.2.symm
      | func ins outs v =>
        cases hvt : fnct.typ with
        | plain t =>
          simp only [hmt, reflect.ValueOf, hvt, Outcome.panic.injEq] at h
          exact h.2.symm
        | ptr e =>
          simp only [hmt, reflect.ValueOf, hvt, Outcome.panic.injEq] at h
          exact h.2.symm
        | func vins vouts vv =>
          simp only [hmt, reflect.ValueOf, hvt] at h
          cases hi : checkIns ins vins with
          | some e =>
            simp only [hi, Outcome.panic.injEq] at h
            exact h.2.symm
          | none =>
            simp only [hi] at h
            cases ho : checkOut outs vouts with
            | some e =>
              simp only [ho, Outcome.panic.injEq] at h
              exact h.2.symm
            | none => simp [ho] at h

/-! ## The identity index and the chains -/

theorem Reaches_congr (m m' : methodInfo) (p : Nat)
    (hagree : ∀ x, x < p → m'.getNextLayer (some x) = m.getNextLayer (some x))
    (hedges : ∀ a b, m.getNextLayer (some a) = some b → b < p) :
    ∀ a l, Reaches m a l → a < p → Reaches m' a l := by
  intro a l h
  induction h with
  | refl a => intro _; exact Reaches.refl a
  | step a b c hab _ ih =>
    intro ha
    exact Reaches.step a b c ((hagree a ha).trans hab) (ih (hedges a b hab))

theorem Indexed_put (cbf : List (Value × Nat)) (key : Value) (p l : Nat)
    (hfresh : ∀ k l', find cbf k = some l' → k ≠ key) :
    (∃ k, find (put cbf key p) k = some l) ↔ l = p ∨ ∃ k, find cbf k = some l := by
  constructor
  · rintro ⟨k, hk⟩
    by_cases hkk : k = key
    · subst hkk
      rw [find_put_self] at hk
      exact Or.inl (Option.some.inj hk).symm
    · rw [find_put_ne _ _ _ _ hkk] at hk
      exact Or.inr ⟨k, hk⟩
  · rintro (rfl | ⟨k, hk⟩)
    · exact ⟨key, find_put_self _ _ _⟩
    · exact ⟨k, by rw [find_put_ne _ _ _ _ (hfresh k l hk)]; exact hk⟩

theorem ModelOk_mono (nl nc nl' nc' : Nat) (mc : methodsCollection) (h : ModelOk nl nc mc)
    (hl : nl ≤ nl') (hc : nc ≤ nc') : ModelOk nl' nc' mc where
  keys := fun k l hk => Nat.lt_of_lt_of_le (h.keys k l hk) hc
  adapters := h.adapters
  tops := fun m methInfo hm => by
    obtain ⟨t, ht, hlt⟩ := h.tops m methInfo hm
    exact ⟨t, ht, Nat.lt_of_lt_of_le hlt hl⟩
  edges := fun m methInfo a b hm hab => Nat.lt_of_lt_of_le (h.edges m methInfo a b hm hab) hl
  consistent := h.consistent

theorem ModelOk_new : ModelOk 0 0 newMethodsCollection where
  keys := fun k l hk => by simp [newMethodsCollection, find] at hk
  adapters := fun k l hk => by simp [newMethodsCollection, find] at hk
  tops := fun m methInfo hm => by
    simp [newMethodsCollection, methodsCollection.get, find] at hm
  edges := fun m methInfo a b hm _ => by
    simp [newMethodsCollection, methodsCollection.get, find] at hm
  consistent := fun l => by
    constructor
    · rintro ⟨k, hk⟩
      simp [newMethodsCollection, find] at hk
    · rintro ⟨m, methInfo, t, hm, -, -⟩
      simp [newMethodsCollection, methodsCollection.get, find] at hm

theorem ModelOk_extend (nl nc : Nat) (mc : methodsCollection) (m : String)
    (methInfo : methodInfo) (key : Value)
    (h : ModelOk nl nc mc) (hget : mc.get m = some methInfo) (hkey : key.ptr = nc)
    (hkt : key.typ = methodLayerFunctionType) (hkf : key.flagAddr = false) :
    ModelOk (nl + 1) (nc + 1)
      { cache := put mc.cache m
          { methInfo with
            nextLayer := put methInfo.nextLayer nl methInfo.topLayer, topLayer := some nl },
        cacheByFunc := put mc.cacheByFunc key nl,
        bootstrapped := mc.bootstrapped } := by
  have hfresh : ∀ k l', find mc.cacheByFunc k = some l' → k ≠ key := by
    intro k l' hk e
    have := h.keys k l' hk
    rw [e, hkey] at this
    exact Nat.lt_irrefl _ this
  obtain ⟨t, ht, htlt⟩ := h.tops m methInfo hget
  have hnextp : methodInfo.getNextLayer
      { methInfo with
        nextLayer := put methInfo.nextLayer nl methInfo.topLayer, topLayer := some nl }
      (some nl) = some t := by
    simp [methodInfo.getNextLayer, find_put_self, ht]
  have hagree : ∀ x, x ≠ nl → methodInfo.getNextLayer
      { methInfo with
        nextLayer := put methInfo.nextLayer nl methInfo.topLayer, topLayer := some nl }
      (some x) = methInfo.getNextLayer (some x) := by
    intro x hx
    simp [methodInfo.getNextLayer, find_put_ne _ _ _ _ hx]
  have hedges : ∀ a b, methInfo.getNextLayer (some a) = some b → b < nl :=
    fun a b => h.edges m methInfo a b hget
  have hedges1 : ∀ a b, methodInfo.getNextLayer
      { methInfo with
        nextLayer := put methInfo.nextLayer nl methInfo.topLayer, topLayer := some nl }
      (some a) = some b → b < nl := by
    intro a b hab
    by_cases ha : a = nl
    · subst ha
      rw [hnextp] at hab
      cases hab
      exact htlt
    · rw [hagree a ha] at hab
      exact hedges a b hab
  refine ⟨?_, ?_, ?_, ?_, ?_⟩
  · intro k l hk
    by_cases hkk : k = key
    · rw [hkk, hkey]
      exact Nat.lt_succ_self _
    · simp only at hk
      rw [find_put_ne _ _ _ _ hkk] at hk
      exact Nat.lt_succ_of_lt (h.keys k l hk)
  · intro k l hk
    by_cases hkk : k = key
    · rw [hkk]
      exact ⟨hkt, hkf⟩
    · simp only at hk
      rw [find_put_ne _ _ _ _ hkk] at hk
      exact h.adapters k l hk
  · intro m' mi' hm'
    simp only [methodsCollection.get] at hm'
    by_cases hmm : m' = m
    · subst hmm
      rw [find_put_self] at hm'
      cases hm'
      exact ⟨nl, rfl, Nat.lt_succ_self _⟩
    · rw [find_put_ne _ _ _ _ hmm] at hm'
      obtain ⟨t', ht', hlt'⟩ := h.tops m' mi' hm'
      exact ⟨t', ht', Nat.lt_succ_of_lt hlt'⟩
  · intro m' mi' a b hm' hab
    simp only [methodsCollection.get] at hm'
    by_cases hmm : m' = m
    · subst hmm
      rw [find_put_self] at hm'
      cases hm'
      exact Nat.lt_succ_of_lt (hedges1 a b hab)
    · rw [find_put_ne _ _ _ _ hmm] at hm'
      exact Nat.lt_succ_of_lt (h.edges m' mi' a b hm' hab)
  · intro l
    have hI := Indexed_put mc.cacheByFunc key nl l hfresh
    constructor
    · intro hidx
      rcases hI.1 hidx with rfl | hold
      · exact ⟨m, _, l, find_put_self _ _ _, rfl, Reaches.refl _⟩
      · obtain ⟨m', mi', t', hm', ht', hr⟩ := (h.consistent l).1 hold
        by_cases hmm : m' = m
        · subst hmm
          rw [hget] at hm'
          cases hm'
          rw [ht] at ht'
          cases ht'
          refine ⟨m', _, nl, find_put_self _ _ _, rfl, ?_⟩
          exact Reaches.step nl t l hnextp
            (Reaches_congr methInfo _ nl (fun x hx => hagree x (Nat.ne_of_lt hx)) hedges t l hr
              htlt)
        · refine ⟨m', mi', t', ?_, ht', hr⟩
          simp only [methodsCollection.get]
          rw [find_put_ne _ _ _ _ hmm]
          exact hm'
    · rintro ⟨m', mi', t', hm', ht', hr⟩
      apply hI.2
      simp only [methodsCollection.get] at hm'
      by_cases hmm : m' = m
      · subst hmm
        rw [find_put_self] at hm'
        cases hm'
        simp only [Option.some.injEq] at ht'
        subst ht'
        cases hr with
        | refl => exact Or.inl rfl
        | step _ b _ hab hbl =>
          rw [hnextp] at hab
          cases hab
          right
          exact (h.consistent l).2 ⟨m', methInfo, t, hget, ht,
            Reaches_congr _ methInfo nl (fun x hx => (hagree x (Nat.ne_of_lt hx)).symm)
              hedges1 t l hbl htlt⟩
      · rw [find_put_ne _ _ _ _ hmm] at hm'
        right
        exact (h.consistent l).2 ⟨m', mi', t', hm', ht', hr⟩

theorem ModelOk_create (nl nc : Nat) (mc : methodsCollection) (m : String)
    (methInfo : methodInfo) (key : Value)
    (h : ModelOk nl nc mc) (hnew : mc.get m = none)
    (htop : methInfo.topLayer = some nl) (hnext : methInfo.nextLayer = [])
    (hkey : key.ptr = nc)
    (hkt : key.typ = methodLayerFunctionType) (hkf : key.flagAddr = false) :
    ModelOk (nl + 1) (nc + 1)
      { cache := put mc.cache m methInfo,
        cacheByFunc := put mc.cacheByFunc key nl,
        bootstrapped := mc.bootstrapped } := by
  have hfresh : ∀ k l', find mc.cacheByFunc k = some l' → k ≠ key := by
    intro k l' hk e
    have := h.keys k l' hk
    rw [e, hkey] at this
    exact Nat.lt_irrefl _ this
  have hnone : ∀ a, methInfo.getNextLayer (some a) = none := by
    intro a
    simp [methodInfo.getNextLayer, hnext, find]
  refine ⟨?_, ?_, ?_, ?_, ?_⟩
  · intro k l hk
    by_cases hkk : k = key
    · rw [hkk, hkey]
      exact Nat.lt_succ_self _
    · simp only at hk
      rw [find_put_ne _ _ _ _ hkk] at hk
      exact Nat.lt_succ_of_lt (h.keys k l hk)
  · intro k l hk
    by_cases hkk : k = key
    · rw [hkk]
      exact ⟨hkt, hkf⟩
    · simp only at hk
      rw [find_put_ne _ _ _ _ hkk] at hk
      exact h.adapters k l hk
  · intro m' mi' hm'
    simp only [methodsCollection.get] at hm'
    by_cases hmm : m' = m
    · subst hmm
      rw [find_put_self] at hm'
      cases hm'
      exact ⟨nl, htop, Nat.lt_succ_self _⟩
    · rw [find_put_ne _ _ _ _ hmm] at hm'
      obtain ⟨t', ht', hlt'⟩ := h.tops m' mi' hm'
      exact ⟨t', ht', Nat.lt_succ_of_lt hlt'⟩
  · intro m' mi' a b hm' hab
    simp only [methodsCollection.get] at hm'
    by_cases hmm : m' = m
    · subst hmm
      rw [find_put_self] at hm'
      cases hm'
      rw [hnone a] at hab
      cases hab
    · rw [find_put_ne _ _ _ _ hmm] at hm'
      exact Nat.lt_succ_of_lt (h.edges m' mi' a b hm' hab)
  · intro l
    have hI := Indexed_put mc.cacheByFunc key nl l hfresh
    constructor
    · intro hidx
      rcases hI.1 hidx with rfl | hold
      · exact ⟨m, methInfo, l, find_put_self _ _ _, htop, Reaches.refl _⟩
      · obtain ⟨m', mi', t', hm', ht', hr⟩ := (h.consistent l).1 hold
        have hmm : m' ≠ m := by
          intro e
          rw [e, hnew] at hm'
          cases hm'
        refine ⟨m', mi', t', ?_, ht', hr⟩
        simp only [methodsCollection.get]
        rw [find_put_ne _ _ _ _ hmm]
        exact hm'
    · rintro ⟨m', mi', t', hm', ht', hr⟩
      apply hI.2
      simp only [methodsCollection.get] at hm'
      by_cases hmm : m' = m
      · subst hmm
        rw [find_put_self] at hm'
        cases hm'
        rw [htop] at ht'
        cases ht'
        cases hr with
        | refl => exact Or.inl rfl
        | step _ b _ hab hbl =>
          rw [hnone] at hab
          cases hab
      · rw [find_put_ne _ _ _ _ hmm] at hm'
        right
        exact (h.consistent l).2 ⟨m', mi', t', hm', ht', hr⟩

theorem find_mem {κ ν : Type} [DecidableEq κ] (m : List (κ × ν)) (k : κ) (v : ν)
    (h : find m k = some v) : (k, v) ∈ m := by
  induction m with
  | nil => simp [find] at h
  | cons e m ih =>
    obtain ⟨k', v'⟩ := e
    by_cases hk : k' = k
    · subst hk
      simp only [find, if_true, Option.some.injEq] at h
      subst h
      exact List.mem_cons_self _ _
    · simp only [find, hk, if_false] at h
      exact List.mem_cons_of_mem _ (ih h)

theorem Inv_created (s : State) (modelName methodName : String) (mi : modelInfo) (fnct : Iface)
    (h : Inv s) (hreg : find s.modelRegistry modelName = some mi)
    (hnew : mi.methods.get methodName = none) :
    Inv (created s modelName methodName mi fnct) := by
  intro M mi' hM
  simp only [created] at hM ⊢
  simp only [List.length_append, List.length_singleton]
  by_cases hMM : M = modelName
  · subst hMM
    rw [find_put_self] at hM
    cases hM
    exact ModelOk_create _ _ _ _ _ _ (h M mi hreg) hnew rfl rfl rfl rfl rfl
  · rw [find_put_ne _ _ _ _ hMM] at hM
    exact ModelOk_mono _ _ _ _ _ (h M mi' hM) (Nat.le_succ _) (Nat.le_succ _)

theorem Inv_addMethodLayer (s : State) (modelName methodName : String) (mi : modelInfo)
    (methInfo : methodInfo) (val : Value)
    (h : Inv s) (hreg : find s.modelRegistry modelName = some mi)
    (hget : mi.methods.get methodName = some methInfo) :
    Inv (methodInfo.addMethodLayer s modelName methodName mi methInfo val) := by
  intro M mi' hM
  simp only [methodInfo.addMethodLayer, wrapFunctionForMethodLayer,
    methodsCollection.addLayer] at hM ⊢
  simp only [List.length_append, List.length_singleton]
  by_cases hMM : M = modelName
  · subst hMM
    rw [find_put_self] at hM
    cases hM
    exact ModelOk_extend _ _ _ _ _ _ (h M mi hreg) hget rfl rfl rfl
  · rw [find_put_ne _ _ _ _ hMM] at hM
    exact ModelOk_mono _ _ _ _ _ (h M mi' hM) (Nat.le_succ _) (Nat.le_succ _)

theorem Reachable_Inv (s : State) (h : Reachable s) : Inv s := by
  induction h with
  | init reg hreg =>
    intro M mi hM
    have := hreg _ (find_mem _ _ _ hM)
    simp only at this
    rw [this]
    exact ModelOk_new
  | create s modelName methodName fnct _ ih =>
    cases hc : CreateMethod s modelName methodName fnct with
    | panic e s1 =>
      rw [CreateMethod_panic_state _ _ _ _ _ _ hc]
      exact ih
    | ok s' =>
      obtain ⟨mi, t0, ins, outs, v, hreg, -, hnew, -, -, rfl⟩ :=
        (CreateMethod_ok_iff _ _ _ _ _).1 hc
      exact Inv_created s modelName methodName mi fnct ih hreg hnew
  | extend s modelName methodName fnct _ ih =>
    cases hc : ExtendMethod s modelName methodName fnct with
    | panic e s1 =>
      rw [ExtendMethod_panic_state _ _ _ _ _ _ hc]
      exact ih
    | ok s' =>
      obtain ⟨mi, methInfo, ins, outs, v, vins, vouts, vv, hreg, -, hget, -, -, -, -, rfl⟩ :=
        (ExtendMethod_ok_iff _ _ _ _ _).1 hc
      exact Inv_addMethodLayer s modelName methodName mi methInfo _ ih hreg hget

/-! ## What ExtendMethod compares -/

theorem checkIns_eq_none_iff (ins vins : List Ty) :
    checkIns ins vins = none ↔ ∀ i, 1 ≤ i → i < ins.length → vins[i]? = ins[i]? := by
  unfold checkIns
  rw [List.findSome?_eq_none_iff]
  constructor
  · intro h i h1 hlt
    have hmem : i ∈ List.range' 1 (ins.length - 1) := by
      rw [List.mem_range'_1]
      omega
    have hi := h i hmem
    rw [List.getElem?_eq_getElem hlt] at hi ⊢
    cases hv : vins[i]? with
    | none => simp [hv] at hi
    | some b =>
      simp only [hv] at hi
      by_cases hab : ins[i] = b
      · rw [hab]
      · simp [hab] at hi
  · intro h i hmem
    rw [List.mem_range'_1] at hmem
    have hlt : i < ins.length := by omega
    have hi := h i hmem.1 hlt
    rw [List.getElem?_eq_getElem hlt] at hi ⊢
    rw [hi]
    simp

theorem checkOut_eq_none_iff (outs vouts : List Ty) :
    checkOut outs vouts = none ↔ (outs = [] ∨ (outs.head? ≠ none ∧ vouts.head? = outs.head?)) := by
  unfold checkOut
  cases outs with
  | nil => simp
  | cons o os =>
    cases vouts with
    | nil => simp
    | cons vo vos =>
      by_cases h : o = vo
      · simp [h]
      · have h' : ¬ vo = o := fun e => h e.symm
        simp [h, h']

/-- The part of the signature test that the code does make: a function that
lacks one of the base parameters from the second on, or has another type
there, is refused and nothing is written. -/
theorem ExtendMethod_rejects_mismatch (s : State) (modelName methodName : String)
    (fnct : Iface) (mi : modelInfo) (methInfo : methodInfo) (ins outs vins vouts : List Ty)
    (v vv : Bool) (i : Nat)
    (hreg : find s.modelRegistry modelName = some mi)
    (hget : mi.methods.get methodName = some methInfo)
    (hmt : methInfo.methodType = .func ins outs v)
    (hvt : fnct.typ = .func vins vouts vv)
    (h1 : 1 ≤ i) (hlt : i < ins.length) (hne : vins[i]? ≠ ins[i]?) :
    ∃ msg, ExtendMethod s modelName methodName fnct = .panic msg s := by
  cases hx : ExtendMethod s modelName methodName fnct with
  | panic e s1 =>
    rw [ExtendMethod_panic_state _ _ _ _ _ _ hx]
    exact ⟨e, rfl⟩
  | ok s' =>
    obtain ⟨mi0, methInfo0, ins0, outs0, v0, vins0, vouts0, vv0, hreg0, -, hget0, hmt0, hvt0,
      hi, -, -⟩ := (ExtendMethod_ok_iff _ _ _ _ _).1 hx
    rw [hreg] at hreg0
    cases hreg0
    rw [hget] at hget0
    cases hget0
    rw [hmt] at hmt0
    cases hmt0
    rw [hvt] at hvt0
    cases hvt0
    exact absurd ((checkIns_eq_none_iff _ _).1 hi i h1 hlt) hne

/-- In a reachable memory every key of the identity index is the value of an
adapter closure, which no `Elem` of a pointer equals: `getByFunc` finds no
layer. -/
theorem getByFunc_reachable (s : State) (h : Reachable s) (modelName : String) (mi : modelInfo)
    (hreg : find s.modelRegistry modelName = some mi) (fnctPtr : Iface) (l : Nat) :
    mi.methods.getByFunc fnctPtr ≠ .ok (some l) := by
  intro hcontra
  unfold methodsCollection.getByFunc at hcontra
  cases he : reflect.Elem (reflect.ValueOf fnctPtr) with
  | none => simp [he] at hcontra
  | some key =>
    simp only [he, Res.ok.injEq] at hcontra
    have hshape := ((Reachable_Inv s h) modelName mi hreg).adapters key l hcontra
    unfold reflect.Elem at he
    cases ht : (reflect.ValueOf fnctPtr).typ with
    | plain t => simp [ht] at he
    | func a b c => simp [ht] at he
    | ptr e =>
      simp only [ht, Option.some.injEq] at he
      rw [← he] at hshape
      simp at hshape

/-! ## The signature of a method -/

theorem SigIs_create (s s' : State) (modelName methodName : String) (fnct : Iface)
    (h : CreateMethod s modelName methodName fnct = .ok s') :
    SigIs s' modelName methodName fnct.typ := by
  obtain ⟨mi, t0, ins, outs, v, -, hopen, -, -, -, rfl⟩ := (CreateMethod_ok_iff _ _ _ _ _).1 h
  exact ⟨_, _, find_put_self _ _ _, hopen, find_put_self _ _ _, rfl, rfl⟩

theorem SigIs_extend (s s' : State) (modelName methodName : String) (fnct : Iface) (t : GoType)
    (hsig : SigIs s modelName methodName t)
    (h : ExtendMethod s modelName methodName fnct = .ok s') :
    SigIs s' modelName methodName t := by
  obtain ⟨mi, methInfo, hreg, hopen, hget, hmt, hname⟩ := hsig
  obtain ⟨mi0, methInfo0, ins, outs, v, vins, vouts, vv, hreg0, -, hex0, -, -, -, -, rfl⟩ :=
    (ExtendMethod_ok_iff _ _ _ _ _).1 h
  rw [hreg] at hreg0
  cases hreg0
  rw [hget] at hex0
  cases hex0
  exact ⟨_, _, find_put_self _ _ _, hopen, find_put_self _ _ _, hmt, hname⟩

theorem SigIs_extendAll (modelName methodName : String) (t : GoType) :
    ∀ (fs : List Iface) (s s' : State),
      SigIs s modelName methodName t →
      extendAll s modelName methodName fs = .ok s' →
      SigIs s' modelName methodName t := by
  intro fs
  induction fs with
  | nil =>
    intro s s' hsig h
    simp only [extendAll, Outcome.ok.injEq] at h
    subst h
    exact hsig
  | cons f fs ih =>
    intro s s' hsig h
    simp only [extendAll] at h
    cases hx : ExtendMethod s modelName methodName f with
    | panic e s1 => simp [hx] at h
    | ok s1 =>
      simp only [hx] at h
      exact ih s1 s' (SigIs_extend s s1 modelName methodName f t hsig hx) h

/-! ## What a returning ExtendMethod leaves alone -/

theorem put_of_find_none {κ ν : Type} [DecidableEq κ] (m : List (κ × ν)) (k : κ) (v : ν)
    (h : find m k = none) : put m k v = m ++ [(k, v)] := by
  induction m with
  | nil => simp [put]
  | cons e m ih =>
    obtain ⟨k', v'⟩ := e
    by_cases hk : k' = k
    · simp [find, hk] at h
    · simp only [find, hk, if_false] at h
      simp [put, hk, ih h]

theorem put_keys {κ ν : Type} [DecidableEq κ] (m : List (κ × ν)) (k : κ) (v v0 : ν)
    (h : find m k = some v0) : (put m k v).map Prod.fst = m.map Prod.fst := by
  induction m with
  | nil => simp [find] at h
  | cons e m ih =>
    obtain ⟨k', v'⟩ := e
    by_cases hk : k' = k
    · simp [put, hk]
    · simp only [find, hk, if_false] at h
      simp [put, hk, ih h]

theorem Reachable_NextKeysOk (s : State) (h : Reachable s) : NextKeysOk s := by
  induction h with
  | init reg hreg =>
    intro M mi m methInfo a b hM hm _
    have := hreg _ (find_mem _ _ _ hM)
    simp only at this
    rw [this] at hm
    simp [newMethodsCollection, methodsCollection.get, find] at hm
  | create s modelName methodName fnct _ ih =>
    cases hc : CreateMethod s modelName methodName fnct with
    | panic e s1 =>
      rw [CreateMethod_panic_state _ _ _ _ _ _ hc]
      exact ih
    | ok s' =>
      obtain ⟨mi, t0, ins, outs, v, hreg, -, hnew, -, -, rfl⟩ :=
        (CreateMethod_ok_iff _ _ _ _ _).1 hc
      intro M mi' m methInfo a b hM hm hab
      simp only [Outcome.state, created] at hM ⊢
      simp only [List.length_append, List.length_singleton]
      by_cases hMM : M = modelName
      · subst hMM
        rw [find_put_self] at hM
        cases hM
        simp only [methodsCollection.get] at hm
        by_cases hmm : m = methodName
        · subst hmm
          rw [find_put_self] at hm
          cases hm
          simp [find] at hab
        · rw [find_put_ne _ _ _ _ hmm] at hm
          exact Nat.lt_succ_of_lt (ih M mi m methInfo a b hreg hm hab)
      · rw [find_put_ne _ _ _ _ hMM] at hM
        exact Nat.lt_succ_of_lt (ih M mi' m methInfo a b hM hm hab)
  | extend s modelName methodName fnct _ ih =>
    cases hc : ExtendMethod s modelName methodName fnct with
    | panic e s1 =>
      rw [ExtendMethod_panic_state _ _ _ _ _ _ hc]
      exact ih
    | ok s' =>
      obtain ⟨mi, methInfo0, ins, outs, v, vins, vouts, vv, hreg, -, hget, -, -, -, -, rfl⟩ :=
        (ExtendMethod_ok_iff _ _ _ _ _).1 hc
      intro M mi' m methInfo a b hM hm hab
      simp only [Outcome.state, methodInfo.addMethodLayer, methodsCollection.addLayer] at hM ⊢
      simp only [List.length_append, List.length_singleton]
      by_cases hMM : M = modelName
      · subst hMM
        rw [find_put_self] at hM
        cases hM
        simp only [methodsCollection.get] at hm
        by_cases hmm : m = methodName
        · subst hmm
          rw [find_put_self] at hm
          cases hm
          simp only at hab
          by_cases ha : a = s.layers.length
          · rw [ha]
            exact Nat.lt_succ_self _
          · rw [find_put_ne _ _ _ _ ha] at hab
            exact Nat.lt_succ_of_lt (ih M mi m methInfo0 a b hreg hget hab)
        · rw [find_put_ne _ _ _ _ hmm] at hm
          exact Nat.lt_succ_of_lt (ih M mi m methInfo a b hreg hm hab)
      · rw [find_put_ne _ _ _ _ hMM] at hM
        exact Nat.lt_succ_of_lt (ih M mi' m methInfo a b hM hm hab)

/-! ## Chains in reachable memories -/

theorem Registered_Reachable (s : State) (regs : String → String → List Iface)
    (h : Registered s regs) : Reachable s := by
  induction h with
  | init reg hreg => exact Reachable.init reg hreg
  | create s regs modelName methodName fnct _ ih =>
    exact Reachable.create s modelName methodName fnct ih
  | extend s regs modelName methodName fnct _ ih =>
    exact Reachable.extend s modelName methodName fnct ih

theorem walk_nil (m : methodInfo) (n : Nat) (start : Option Nat)
    (h : walk m n start = some []) : start = none := by
  cases start with
  | none => rfl
  | some p =>
    cases n with
    | zero => simp [walk] at h
    | succ n => simp [walk] at h

theorem walk_last (m : methodInfo) :
    ∀ (n : Nat) (start : Option Nat) (ls : List Nat),
      walk m n start = some ls → ls ≠ [] →
      ∃ base, ls.getLast? = some base ∧ hops m (ls.length - 1) start = some base ∧
        m.getNextLayer (some base) = none := by
  intro n
  induction n with
  | zero =>
    intro start ls h hne
    cases start with
    | none =>
      simp only [walk, Option.some.injEq] at h
      exact absurd h.symm hne
    | some p => simp [walk] at h
  | succ n ih =>
    intro start ls h hne
    cases start with
    | none =>
      simp only [walk, Option.some.injEq] at h
      exact absurd h.symm hne
    | some p =>
      simp only [walk, Option.map_eq_some'] at h
      obtain ⟨rest, hrest, rfl⟩ := h
      cases rest with
      | nil =>
        have hnone := walk_nil m n _ hrest
        exact ⟨p, rfl, rfl, hnone⟩
      | cons r rs =>
        obtain ⟨base, hlast, hhops, hnone⟩ := ih _ (r :: rs) hrest (by simp)
        refine ⟨base, ?_, ?_, hnone⟩
        · rw [List.getLast?_cons_cons]
          exact hlast
        · simp only [List.length_cons, Nat.add_sub_cancel] at hhops ⊢
          exact hhops

theorem walk_le (m : methodInfo)
    (hdesc : ∀ a b, m.getNextLayer (some a) = some b → b < a) :
    ∀ (n : Nat) (p : Nat) (ls : List Nat),
      walk m n (some p) = some ls → ∀ l ∈ ls, l ≤ p := by
  intro n
  induction n with
  | zero =>
    intro p ls h
    simp [walk] at h
  | succ n ih =>
    intro p ls h l hl
    simp only [walk, Option.map_eq_some'] at h
    obtain ⟨rest, hrest, rfl⟩ := h
    rcases List.mem_cons.1 hl with rfl | hl'
    · exact Nat.le_refl _
    · cases hnext : m.getNextLayer (some p) with
      | none =>
        rw [hnext] at hrest
        simp only [walk, Option.some.injEq] at hrest
        rw [← hrest] at hl'
        cases hl'
      | some b =>
        rw [hnext] at hrest
        exact Nat.le_of_lt (Nat.lt_of_le_of_lt (ih b rest hrest l hl') (hdesc p b hnext))

theorem walk_nodup (m : methodInfo)
    (hdesc : ∀ a b, m.getNextLayer (some a) = some b → b < a) :
    ∀ (n : Nat) (start : Option Nat) (ls : List Nat),
      walk m n start = some ls → ls.Nodup := by
  intro n
  induction n with
  | zero =>
    intro start ls h
    cases start with
    | none =>
      simp only [walk, Option.some.injEq] at h
      rw [← h]
      exact List.nodup_nil
    | some p => simp [walk] at h
  | succ n ih =>
    intro start ls h
    cases start with
    | none =>
      simp only [walk, Option.some.injEq] at h
      rw [← h]
      exact List.nodup_nil
    | some p =>
      simp only [walk, Option.map_eq_some'] at h
      obtain ⟨rest, hrest, rfl⟩ := h
      refine List.nodup_cons.2 ⟨?_, ih _ rest hrest⟩
      intro hmem
      cases hnext : m.getNextLayer (some p) with
      | none =>
        rw [hnext] at hrest
        simp only [walk, Option.some.injEq] at hrest
        rw [← hrest] at hmem
        cases hmem
      | some b =>
        rw [hnext] at hrest
        have h1 := walk_le m hdesc n b rest hrest p hmem
        have h2 := hdesc p b hnext
        omega

theorem map_wrapped_append (s s' : State) (a : List methodLayer) (b : List Value)
    (hl : s'.layers = s.layers ++ a) (hc : s'.closures = s.closures ++ b) :
    ∀ (xs : List Nat) (ws : List Value),
      xs.map (wrapped s) = ws.map some → xs.map (wrapped s') = ws.map some := by
  intro xs
  induction xs with
  | nil => intro ws hws; simpa using hws
  | cons x xs ihx =>
    intro ws hws
    cases ws with
    | nil => simp at hws
    | cons w ws =>
      simp only [List.map_cons, List.cons.injEq] at hws ⊢
      exact ⟨wrapped_append s s' a b hl hc x w hws.1, ihx ws hws.2⟩

theorem ChainIs_frame (s s' : State) (modelName methodName : String) (n : Nat)
    (vs : List Value) (a : List methodLayer) (b : List Value)
    (hl : s'.layers = s.layers ++ a) (hc : s'.closures = s.closures ++ b)
    (hsame : ∀ mi methInfo, find s.modelRegistry modelName = some mi →
      mi.methods.get methodName = some methInfo →
      ∃ mi', find s'.modelRegistry modelName = some mi' ∧
        mi'.methods.get methodName = some methInfo)
    (h : ChainIs s modelName methodName n vs) : ChainIs s' modelName methodName n vs := by
  obtain ⟨mi, methInfo, ls, hreg, hget, hwalk, hlt, hwr⟩ := h
  obtain ⟨mi', hreg', hget'⟩ := hsame mi methInfo hreg hget
  refine ⟨mi', methInfo, ls, hreg', hget', hwalk, ?_, map_wrapped_append s s' a b hl hc ls vs hwr⟩
  intro l hl'
  rw [hl, List.length_append]
  exact Nat.lt_of_lt_of_le (hlt l hl') (Nat.le_add_right _ _)

theorem Reachable_DescOk (s : State) (h : Reachable s) : DescOk s := by
  induction h with
  | init reg hreg =>
    intro M mi m methInfo a b hM hm _
    have := hreg _ (find_mem _ _ _ hM)
    simp only at this
    rw [this] at hm
    simp [newMethodsCollection, methodsCollection.get, find] at hm
  | create s modelName methodName fnct _ ih =>
    cases hc : CreateMethod s modelName methodName fnct with
    | panic e s1 =>
      rw [CreateMethod_panic_state _ _ _ _ _ _ hc]
      exact ih
    | ok s' =>
      obtain ⟨mi, t0, ins, outs, v, hreg, -, hnew, -, -, rfl⟩ :=
        (CreateMethod_ok_iff _ _ _ _ _).1 hc
      intro M mi' m methInfo a b hM hm hab
      simp only [Outcome.state, created] at hM
      by_cases hMM : M = modelName
      · subst hMM
        rw [find_put_self] at hM
        cases hM
        simp only [methodsCollection.get] at hm
        by_cases hmm : m = methodName
        · subst hmm
          rw [find_put_self] at hm
          cases hm
          simp [methodInfo.getNextLayer, find] at hab
        · rw [find_put_ne _ _ _ _ hmm] at hm
          exact ih M mi m methInfo a b hreg hm hab
      · rw [find_put_ne _ _ _ _ hMM] at hM
        exact ih M mi' m methInfo a b hM hm hab
  | extend s modelName methodName fnct hr' ih =>
    cases hc : ExtendMethod s modelName methodName fnct with
    | panic e s1 =>
      rw [ExtendMethod_panic_state _ _ _ _ _ _ hc]
      exact ih
    | ok s' =>
      obtain ⟨mi, methInfo0, ins, outs, v, vins, vouts, vv, hreg, -, hget, -, -, -, -, rfl⟩ :=
        (ExtendMethod_ok_iff _ _ _ _ _).1 hc
      obtain ⟨t, ht, htlt⟩ := (Reachable_Inv s hr' modelName mi hreg).tops methodName methInfo0 hget
      intro M mi' m methInfo a b hM hm hab
      simp only [Outcome.state, methodInfo.addMethodLayer, methodsCollection.addLayer] at hM
      by_cases hMM : M = modelName
      · subst hMM
        rw [find_put_self] at hM
        cases hM
        simp only [methodsCollection.get] at hm
        by_cases hmm : m = methodName
        · subst hmm
          rw [find_put_self] at hm
          cases hm
          by_cases ha : a = s.layers.length
          · subst ha
            simp only [methodInfo.getNextLayer, find_put_self, Option.join, Option.some_bind,
              id, ht, Option.some.injEq] at hab
            rw [← hab]
            exact htlt
          · simp only [methodInfo.getNextLayer, find_put_ne _ _ _ _ ha] at hab
            exact ih M mi m methInfo0 a b hreg hget hab
        · rw [find_put_ne _ _ _ _ hmm] at hm
          exact ih M mi m methInfo a b hreg hm hab
      · rw [find_put_ne _ _ _ _ hMM] at hM
        exact ih M mi' m methInfo a b hM hm hab

theorem HistOk_step (s s' : State) (regs : String → String → List Iface)
    (modelName methodName : String) (fnct : Iface) (a : List methodLayer) (b : List Value)
    (hl : s'.layers = s.layers ++ a) (hc : s'.closures = s.closures ++ b)
    (hother : ∀ M m mi', ¬ (M = modelName ∧ m = methodName) →
      find s'.modelRegistry M = some mi' →
      ∃ mi0, find s.modelRegistry M = some mi0 ∧ mi'.methods.get m = mi0.methods.get m)
    (hsome : ∀ mi', find s'.modelRegistry modelName = some mi' →
      mi'.methods.get methodName ≠ none)
    (hchain : ChainIs s' modelName methodName (fnct :: regs modelName methodName).length
      ((fnct :: regs modelName methodName).map reflect.ValueOf))
    (h : HistOk s regs) : HistOk s' (pushed regs modelName methodName fnct) := by
  intro M mi' m hM
  by_cases hboth : M = modelName ∧ m = methodName
  · obtain ⟨rfl, rfl⟩ := hboth
    simp only [pushed, and_self, if_true]
    exact ⟨fun hn => absurd hn (hsome mi' hM), fun _ _ => hchain⟩
  · have hregs : pushed regs modelName methodName fnct M m = regs M m := by
      simp [pushed, hboth]
    rw [hregs]
    obtain ⟨mi0, h0, hgeq⟩ := hother M m mi' hboth hM
    obtain ⟨h1, h2⟩ := h M mi0 m h0
    constructor
    · intro hn
      rw [hgeq] at hn
      exact h1 hn
    · intro methInfo hg
      rw [hgeq] at hg
      refine ChainIs_frame s s' M m _ _ a b hl hc ?_ (h2 methInfo hg)
      intro mi1 methInfo1 hr1 hg1
      rw [h0] at hr1
      cases hr1
      exact ⟨mi', hM, by rw [hgeq]; exact hg1⟩

theorem Registered_HistOk (s : State) (regs : String → String → List Iface)
    (h : Registered s regs) : HistOk s regs := by
  induction h with
  | init reg hreg =>
    intro M mi m hM
    have := hreg _ (find_mem _ _ _ hM)
    simp only at this
    rw [this]
    refine ⟨fun _ => rfl, fun methInfo hm => ?_⟩
    simp [newMethodsCollection, methodsCollection.get, find] at hm
  | create s regs modelName methodName fnct _ ih =>
    cases hc : CreateMethod s modelName methodName fnct with
    | panic e s1 =>
      rw [CreateMethod_panic_state _ _ _ _ _ _ hc]
      simpa [recorded, Outcome.isOk, Outcome.state] using ih
    | ok s' =>
      obtain ⟨mi, t0, ins, outs, v, hreg, -, hnew, -, -, hs'⟩ :=
        (CreateMethod_ok_iff _ _ _ _ _).1 hc
      have hempty := (ih modelName mi methodName hreg).1 hnew
      have hchain := ChainIs_create s s' modelName methodName fnct hc
      simp only [recorded, Outcome.isOk, Outcome.state, if_true]
      refine HistOk_step s s' regs modelName methodName fnct
        [{ methInfo := (mi.name, methodName),
           funcValue := ⟨methodLayerFunctionType, s.closures.length, false⟩ }]
        [reflect.ValueOf fnct] (by rw [hs']; rfl) (by rw [hs']; rfl) ?_ ?_ ?_ ih
      · intro M m mi' hboth hM
        rw [hs'] at hM
        simp only [created] at hM
        by_cases hMM : M = modelName
        · subst hMM
          have hmm : m ≠ methodName := fun e => hboth ⟨rfl, e⟩
          rw [find_put_self] at hM
          cases hM
          exact ⟨mi, hreg, find_put_ne _ _ _ _ hmm⟩
        · rw [find_put_ne _ _ _ _ hMM] at hM
          exact ⟨mi', hM, rfl⟩
      · intro mi' hM
        rw [hs'] at hM
        simp only [created] at hM
        rw [find_put_self] at hM
        cases hM
        simp [methodsCollection.get, find_put_self]
      · rw [hempty]
        exact hchain
  | extend s regs modelName methodName fnct _ ih =>
    cases hc : ExtendMethod s modelName methodName fnct with
    | panic e s1 =>
      rw [ExtendMethod_panic_state _ _ _ _ _ _ hc]
      simpa [recorded, Outcome.isOk, Outcome.state] using ih
    | ok s' =>
      obtain ⟨mi, methInfo, ins, outs, v, vins, vouts, vv, hreg, -, hget, -, -, -, -, hs'⟩ :=
        (ExtendMethod_ok_iff _ _ _ _ _).1 hc
      have hchain := ChainIs_extend s s' modelName methodName fnct _ _
        ((ih modelName mi methodName hreg).2 methInfo hget) hc
      simp only [recorded, Outcome.isOk, Outcome.state, if_true]
      refine HistOk_step s s' regs modelName methodName fnct
        [{ methInfo := (mi.name, methInfo.name),
           funcValue := ⟨methodLayerFunctionType, s.closures.length, false⟩ }]
        [reflect.ValueOf fnct] (by rw [hs']; rfl) (by rw [hs']; rfl) ?_ ?_ ?_ ih
      · intro M m mi' hboth hM
        rw [hs'] at hM
        simp only [methodInfo.addMethodLayer, methodsCollection.addLayer] at hM
        by_cases hMM : M = modelName
        · subst hMM
          have hmm : m ≠ methodName := fun e => hboth ⟨rfl, e⟩
          rw [find_put_self] at hM
          cases hM
          exact ⟨mi, hreg, find_put_ne _ _ _ _ hmm⟩
        · rw [find_put_ne _ _ _ _ hMM] at hM
          exact ⟨mi', hM, rfl⟩
      · intro mi' hM
        rw [hs'] at hM
        simp only [methodInfo.addMethodLayer, methodsCollection.addLayer] at hM
        rw [find_put_self] at hM
        cases hM
        simp [methodsCollection.get, find_put_self]
      · exact hchain

/-! ## The adapter -/

theorem ArgsMatch_any (env : Env) (args : List GoVal) (params : List Ty)
    (h : ArgsMatch env args params) : args.any (fun a => a.typeOf.isNone) = false := by
  induction h with
  | nil => rfl
  | cons hap _ ih =>
    obtain ⟨t, ht, -⟩ := hap
    simp only [List.any_cons, ht, Option.isNone_some, Bool.false_or]
    exact ih

theorem ArgsMatch_allAssignable (env : Env) (args : List GoVal) (params : List Ty)
    (h : ArgsMatch env args params) : allAssignable env args params = true := by
  induction h with
  | nil => rfl
  | cons hap _ ih =>
    obtain ⟨t, ht, hat⟩ := hap
    simp only [allAssignable, List.zip_cons_cons, List.all_cons, ht, hat, Bool.true_and]
    exact ih

theorem firstArg_typeOf (env : Env) (t0 : Ty) (rc : Nat) :
    ∃ t, (firstArg t0 rc).typeOf = some t ∧ AssignableTo env t t0 = true := by
  by_cases h : t0 = RecordCollection
  · exact ⟨RecordCollection, by simp [firstArg, h, GoVal.typeOf], by simp [AssignableTo, h]⟩
  · exact ⟨t0, by simp [firstArg, h, GoVal.typeOf], by simp [AssignableTo]⟩

theorem Call_of_match (env : Env) (v : Value) (ins outs : List Ty) (args : List GoVal)
    (hty : v.typ = .func ins outs false) (hnn : v.ptr ≠ 0) (hargs : ArgsMatch env args ins) :
    reflect.Call env v args = { calls := [(v, args)], res := env.run v args } := by
  have hlen : args.length = ins.length := List.Forall₂.length_eq hargs
  unfold reflect.Call
  rw [hty]
  simp only [Bool.false_eq_true, if_false, hlen, Nat.lt_irrefl, and_false, hnn,
    ArgsMatch_any env args ins hargs]
  rw [← hlen, List.take_length, ArgsMatch_allAssignable env args ins hargs]
  simp

theorem methodLayerFunction_of_match (env : Env) (fnctVal : Value) (t0 : Ty)
    (ins outs : List Ty) (rc : Nat) (args : List GoVal)
    (hty : fnctVal.typ = .func (t0 :: ins) outs false)
    (hnn : fnctVal.ptr ≠ 0)
    (hfirst : Conforms env t0)
    (hargs : ArgsMatch env args ins) :
    methodLayerFunction env fnctVal rc args =
      { calls := [(fnctVal, firstArg t0 rc :: args)],
        res := match env.run fnctVal (firstArg t0 rc :: args) with
          | .panic e => .panic e
          | .ok res => .ok res.head? } := by
  have hall : ArgsMatch env (firstArg t0 rc :: args) (t0 :: ins) :=
    List.Forall₂.cons (firstArg_typeOf env t0 rc) hargs
  have hcall := Call_of_match env fnctVal (t0 :: ins) outs (firstArg t0 rc :: args) hty hnn hall
  unfold methodLayerFunction
  rw [hty]
  by_cases h : t0 = RecordCollection
  · simp only [h, if_true]
    rw [h] at hcall
    simp only [firstArg, if_true] at hcall ⊢
    rw [hcall]
  · rcases hfirst with h0 | ⟨ft, hf, hassign⟩
    · exact absurd h0 h
    · simp only [h, if_false, hf, hassign, Bool.true_eq_false]
      simp only [firstArg, h, if_false] at hcall ⊢
      rw [hcall]

theorem methodLayerFunction_of_nonconforming (env : Env) (fnctVal : Value) (t0 : Ty)
    (ins outs : List Ty) (v : Bool) (rc : Nat) (args : List GoVal)
    (hty : fnctVal.typ = .func (t0 :: ins) outs v)
    (hno : ¬ Conforms env t0) :
    (methodLayerFunction env fnctVal rc args).calls = [] ∧
      ∃ e, (methodLayerFunction env fnctVal rc args).res = .panic e := by
  have h0 : ¬ t0 = RecordCollection := fun h => hno (Or.inl h)
  unfold methodLayerFunction
  rw [hty]
  simp only [h0, if_false]
  cases hf : env.field0 t0 with
  | notStruct => exact ⟨rfl, _, rfl⟩
  | noField => exact ⟨rfl, _, rfl⟩
  | field ft exported =>
    cases exported with
    | false => exact ⟨rfl, _, rfl⟩
    | true =>
      cases ha : AssignableTo env RecordCollection ft with
      | false =>
        simp only [ha, Bool.true_eq_false, if_false, if_true]
        exact ⟨trivial, _, rfl⟩
      | true => exact absurd (Or.inr ⟨ft, hf, ha⟩) hno

theorem invokeLayer_created_of_match (env : Env) (s : State) (modelName methodName : String)
    (mi : modelInfo) (fnct : Iface) (t0 : Ty) (ins outs : List Ty) (rc : Nat)
    (args : List GoVal)
    (hty : fnct.typ = .func (t0 :: ins) outs false)
    (hnn : fnct.word ≠ 0)
    (hfirst : Conforms env t0)
    (hargs : ArgsMatch env args ins) :
    invokeLayer env (created s modelName methodName mi fnct) s.layers.length rc args =
      { calls := [(reflect.ValueOf fnct, firstArg t0 rc :: args)],
        res := match env.run (reflect.ValueOf fnct) (firstArg t0 rc :: args) with
          | .panic e => .panic e
          | .ok res => .ok res.head? } := by
  have hw : wrapped (created s modelName methodName mi fnct) s.layers.length =
      some (reflect.ValueOf fnct) := by
    simp [wrapped, created]
  simp only [invokeLayer, hw]
  exact methodLayerFunction_of_match env (reflect.ValueOf fnct) t0 ins outs rc args
    (by simpa [reflect.ValueOf] using hty) (by simpa [reflect.ValueOf] using hnn) hfirst hargs

/-! ## Claims -/

/-- C1: after a returning CreateMethod(model, m, f0) followed by returning
ExtendMethod(model, m, f1), ..., ExtendMethod(model, m, fk), walking from the
top layer of m with getNextLayer ends after k+1 layers, and the functions
these layers wrap are fk, ..., f1, f0 in this order. -/
theorem C1_chain_in_reverse_registration_order (s0 s1 s' : State)
    (modelName methodName : String) (f0 : Iface) (fs : List Iface)
    (hc : CreateMethod s0 modelName methodName f0 = .ok s1)
    (he : extendAll s1 modelName methodName fs = .ok s') :
    ∃ mi methInfo ls,
      find s'.modelRegistry modelName = some mi ∧
      mi.methods.get methodName = some methInfo ∧
      walk methInfo (fs.length + 1) methInfo.topLayer = some ls ∧
      ls.map (wrapped s') = (f0 :: fs).reverse.map (fun f => some (reflect.ValueOf f)) := by
  have h1 := ChainIs_create s0 s1 modelName methodName f0 hc
  obtain ⟨mi, methInfo, ls, hreg, hget, hwalk, -, hwr⟩ :=
    ChainIs_extendAll modelName methodName fs s1 s' 1 [reflect.ValueOf f0] h1 he
  refine ⟨mi, methInfo, ls, hreg, hget, ?_, ?_⟩
  · rw [Nat.add_comm]
    exact hwalk
  · rw [hwr]
    simp [List.map_reverse, Function.comp_def]

/-- Instance of C1: "Total" created with totalFn, extended with surchargeFn and
then doubleFn. -/
theorem C1_chain_in_reverse_registration_order_witness :
    ∃ mi methInfo ls,
      find layeredState.modelRegistry "Invoice" = some mi ∧
      mi.methods.get "Total" = some methInfo ∧
      walk methInfo 3 methInfo.topLayer = some ls ∧
      ls.map (wrapped layeredState) =
        [some (reflect.ValueOf doubleFn), some (reflect.ValueOf surchargeFn),
          some (reflect.ValueOf totalFn)] :=
  C1_chain_in_reverse_registration_order invoiceState totalState layeredState "Invoice" "Total"
    totalFn [surchargeFn, doubleFn] (by decide) (by decide)

/-- C2: when ExtendMethod accepts a function for a method that exists, the
method info found by get afterwards has as topLayer a layer at an address
that held no layer before the call (every earlier layer is still there,
at another address), that layer wraps the function, and getNextLayer of it is
the topLayer from before the call. -/
theorem C2_ExtendMethod_top (s s' : State) (modelName methodName : String) (fnct : Iface)
    (mi : modelInfo) (methInfo : methodInfo)
    (hreg : find s.modelRegistry modelName = some mi)
    (hex : mi.methods.get methodName = some methInfo)
    (hok : ExtendMethod s modelName methodName fnct = .ok s') :
    ∃ mi' methInfo' p,
      find s'.modelRegistry modelName = some mi' ∧
      mi'.methods.get methodName = some methInfo' ∧
      methInfo'.topLayer = some p ∧
      s.layers[p]? = none ∧
      (∃ ml, s'.layers[p]? = some ml) ∧
      (∀ q ml, s.layers[q]? = some ml → q ≠ p ∧ s'.layers[q]? = some ml) ∧
      wrapped s' p = some (reflect.ValueOf fnct) ∧
      methInfo'.getNextLayer (some p) = methInfo.topLayer := by
  obtain ⟨mi0, methInfo0, ins, outs, v, vins, vouts, vv, hreg0, -, hex0, -, -, -, -, rfl⟩ :=
    (ExtendMethod_ok_iff _ _ _ _ _).1 hok
  rw [hreg] at hreg0
  cases hreg0
  rw [hex] at hex0
  cases hex0
  refine ⟨_, _, s.layers.length, find_put_self _ _ _, find_put_self _ _ _, rfl, ?_, ?_, ?_,
    ?_, ?_⟩
  · simp
  · exact ⟨{ methInfo := (mi.name, methInfo.name),
             funcValue := (wrapFunctionForMethodLayer s.closures (reflect.ValueOf fnct)).1 },
      by simp [methodInfo.addMethodLayer]⟩
  · intro q ml hq
    have hlt : q < s.layers.length := by
      by_contra hge
      rw [List.getElem?_eq_none (Nat.le_of_not_lt hge)] at hq
      cases hq
    refine ⟨Nat.ne_of_lt hlt, ?_⟩
    simp only [methodInfo.addMethodLayer]
    rw [List.getElem?_append_left hlt]
    exact hq
  · simp [wrapped, methodInfo.addMethodLayer, wrapFunctionForMethodLayer]
  · simp [methodInfo.getNextLayer, find_put_self]

/-- Instance of C2: extending "Total" once on top of its base layer. -/
theorem C2_ExtendMethod_top_witness :
    ∃ mi' methInfo' p,
      find (ExtendMethod totalState "Invoice" "Total" surchargeFn).state.modelRegistry "Invoice"
        = some mi' ∧
      mi'.methods.get "Total" = some methInfo' ∧
      methInfo'.topLayer = some p ∧
      totalState.layers[p]? = none ∧
      (∃ ml, (ExtendMethod totalState "Invoice" "Total" surchargeFn).state.layers[p]? = some ml) ∧
      (∀ q ml, totalState.layers[q]? = some ml →
        q ≠ p ∧ (ExtendMethod totalState "Invoice" "Total" surchargeFn).state.layers[q]? = some ml) ∧
      wrapped (ExtendMethod totalState "Invoice" "Total" surchargeFn).state p
        = some (reflect.ValueOf surchargeFn) ∧
      methInfo'.getNextLayer (some p) = some 0 :=
  C2_ExtendMethod_top totalState (ExtendMethod totalState "Invoice" "Total" surchargeFn).state
    "Invoice" "Total" surchargeFn _
    { name := "Total", mi := "Invoice", methodType := totalFn.typ, topLayer := some 0,
      nextLayer := [] }
    (by rfl) (by rfl) (by rfl)

/-- C3: for a known unlocked model, an unused method name and a function whose
first parameter implements RecordSet, CreateMethod returns, and afterwards
get(methodName) finds a method info whose name is methodName, whose methodType
is the function's type, whose topLayer is set and has no next layer (one
layer, wrapping the function). -/
theorem C3_CreateMethod_then_get (s : State) (modelName methodName : String) (fnct : Iface)
    (mi : modelInfo) (t0 : Ty) (ins outs : List Ty) (v : Bool)
    (hreg : find s.modelRegistry modelName = some mi)
    (hopen : mi.methods.bootstrapped = false)
    (hnew : mi.methods.get methodName = none)
    (hfn : fnct.typ = .func (t0 :: ins) outs v)
    (hrs : t0.implementsRecordSet = true) :
    ∃ s' mi' methInfo p,
      CreateMethod s modelName methodName fnct = .ok s' ∧
      find s'.modelRegistry modelName = some mi' ∧
      mi'.methods.get methodName = some methInfo ∧
      methInfo.name = methodName ∧ methInfo.methodType = fnct.typ ∧
      methInfo.topLayer = some p ∧ methInfo.getNextLayer (some p) = none ∧
      walk methInfo 1 methInfo.topLayer = some [p] ∧
      wrapped s' p = some (reflect.ValueOf fnct) := by
  refine ⟨created s modelName methodName mi fnct, _, _, s.layers.length,
    (CreateMethod_ok_iff _ _ _ _ _).2 ⟨mi, t0, ins, outs, v, hreg, hopen, hnew, hfn, hrs, rfl⟩,
    find_put_self _ _ _, find_put_self _ _ _, rfl, rfl, rfl, ?_, ?_, ?_⟩
  · simp [methodInfo.getNextLayer, find]
  · simp [walk, methodInfo.getNextLayer, find]
  · simp [wrapped, created]

/-- Instance of C3: creating "Total" on the empty "Invoice" collection. -/
theorem C3_CreateMethod_then_get_witness :
    ∃ s' mi' methInfo p,
      CreateMethod invoiceState "Invoice" "Total" totalFn = .ok s' ∧
      find s'.modelRegistry "Invoice" = some mi' ∧
      mi'.methods.get "Total" = some methInfo ∧
      methInfo.name = "Total" ∧ methInfo.methodType = totalFn.typ ∧
      methInfo.topLayer = some p ∧ methInfo.getNextLayer (some p) = none ∧
      walk methInfo 1 methInfo.topLayer = some [p] ∧
      wrapped s' p = some (reflect.ValueOf totalFn) :=
  C3_CreateMethod_then_get invoiceState "Invoice" "Total" totalFn
    { name := "Invoice", methods := newMethodsCollection } RecordCollection [] [intTy] false
    (by decide) (by decide) (by decide) (by decide) (by decide)

/-- C4 fails on the code: after CreateMethod("Invoice", "Total", totalFn)
layer 0 is the layer created from totalFn, its index key is the value of the
adapter closure, and getByFunc given the reference to totalFn finds no
layer. -/
theorem C4_getByFunc_misses_registered_function :
    CreateMethod invoiceState "Invoice" "Total" totalFn = .ok totalState ∧
      wrapped totalState 0 = some (reflect.ValueOf totalFn) ∧
      (∃ mc, find totalState.modelRegistry "Invoice" = some { name := "Invoice", methods := mc } ∧
        mc.cacheByFunc =
          [({ typ := methodLayerFunctionType, ptr := 0, flagAddr := false }, 0)] ∧
        mc.getByFunc totalFnPtr = .ok none) := by
  refine ⟨by decide, by decide, _, by rfl, by decide, by decide⟩

/-- C5 fails on the code: "Total" has the signature func(RecordCollection) int
and extraArgFn has one more trailing parameter, yet ExtendMethod returns and
the new layer is the top of the chain and is in the identity index. -/
theorem C5_extra_trailing_parameter_accepted :
    (∃ mi methInfo, find totalState.modelRegistry "Invoice" = some mi ∧
        mi.methods.get "Total" = some methInfo ∧
        methInfo.methodType = .func [RecordCollection] [intTy] false ∧
        methInfo.topLayer = some 0 ∧ mi.methods.cacheByFunc.length = 1) ∧
      extraArgFn.typ = .func [RecordCollection, stringTy] [intTy] false ∧
      (ExtendMethod totalState "Invoice" "Total" extraArgFn).isOk = true ∧
      (∃ mi methInfo,
        find (ExtendMethod totalState "Invoice" "Total" extraArgFn).state.modelRegistry "Invoice"
          = some mi ∧
        mi.methods.get "Total" = some methInfo ∧
        methInfo.topLayer = some 1 ∧ methInfo.nextLayer = [(1, some 0)] ∧
        mi.methods.cacheByFunc.length = 2) := by
  refine ⟨⟨_, _, by rfl, by rfl, by decide, by decide, by decide⟩, by decide, by decide,
    ⟨_, _, by rfl, by rfl, by decide, by decide, by decide⟩⟩

/-- C6 fails on the code: ExtendMethod returns and pushes the layer when the
base function has no result and the new one returns an int, and when the two
differ only in their second result. -/
theorem C6_return_mismatch_accepted :
    (∃ mi methInfo, find touchState.modelRegistry "Invoice" = some mi ∧
        mi.methods.get "Touch" = some methInfo ∧
        methInfo.methodType = .func [RecordCollection] [] false) ∧
      totalFn.typ = .func [RecordCollection] [intTy] false ∧
      (ExtendMethod touchState "Invoice" "Touch" totalFn).isOk = true ∧
      (∃ mi methInfo,
        find (ExtendMethod touchState "Invoice" "Touch" totalFn).state.modelRegistry "Invoice"
          = some mi ∧
        mi.methods.get "Touch" = some methInfo ∧ methInfo.topLayer = some 1) ∧
      (∃ mi methInfo, find pairState.modelRegistry "Invoice" = some mi ∧
        mi.methods.get "Pair" = some methInfo ∧
        methInfo.methodType = .func [RecordCollection] [intTy, stringTy] false) ∧
      otherPairFn.typ = .func [RecordCollection] [intTy, intTy] false ∧
      (ExtendMethod pairState "Invoice" "Pair" otherPairFn).isOk = true ∧
      (∃ mi methInfo,
        find (ExtendMethod pairState "Invoice" "Pair" otherPairFn).state.modelRegistry "Invoice"
          = some mi ∧
        mi.methods.get "Pair" = some methInfo ∧ methInfo.topLayer = some 1) := by
  refine ⟨⟨_, _, by rfl, by rfl, by decide⟩, by decide, by decide,
    ⟨_, _, by rfl, by rfl, by decide⟩, ⟨_, _, by rfl, by rfl, by decide⟩, by decide, by decide,
    ⟨_, _, by rfl, by rfl, by decide⟩⟩

/-- C7: when the method name already exists on the model, CreateMethod panics
for every function argument, and the memory at the panic is the memory before
the call (name index, identity index, every chain and the lock flag). -/
theorem C7_CreateMethod_existing (s : State) (modelName methodName : String) (fnct : Iface)
    (mi : modelInfo) (methInfo : methodInfo)
    (hreg : find s.modelRegistry modelName = some mi)
    (hex : mi.methods.get methodName = some methInfo) :
    ∃ msg, CreateMethod s modelName methodName fnct = .panic msg s := by
  unfold CreateMethod
  cases hc : checkMethodAndFnctType s modelName methodName fnct with
  | panic e => exact ⟨e, rfl⟩
  | ok mi0 =>
    obtain ⟨hreg0, -, -⟩ := (checkMethodAndFnctType_ok_iff _ _ _ _ _).1 hc
    rw [hreg] at hreg0
    cases hreg0
    exact ⟨"Call to CreateMethod with an existing method name", by simp [hex]⟩

/-- Instance of C7: creating "Total" a second time. -/
theorem C7_CreateMethod_existing_witness :
    ∃ msg, CreateMethod totalState "Invoice" "Total" doubleFn = .panic msg totalState :=
  C7_CreateMethod_existing totalState "Invoice" "Total" doubleFn _
    { name := "Total", mi := "Invoice", methodType := totalFn.typ, topLayer := some 0,
      nextLayer := [] }
    (by rfl) (by rfl)

/-- C8: on a model whose collection is locked, CreateMethod and ExtendMethod
panic for every method name and every function argument, the memory at the
panic is the memory before the call, and so the model is still locked. -/
theorem C8_locked_no_mutation (s : State) (modelName methodName : String) (fnct : Iface)
    (mi : modelInfo)
    (hreg : find s.modelRegistry modelName = some mi)
    (hlock : mi.methods.bootstrapped = true) :
    CreateMethod s modelName methodName fnct =
        .panic "Create/ExtendMethod must be run before BootStrap" s ∧
      ExtendMethod s modelName methodName fnct =
        .panic "Create/ExtendMethod must be run before BootStrap" s ∧
      (∃ mi', find (CreateMethod s modelName methodName fnct).state.modelRegistry modelName
          = some mi' ∧ mi'.methods.bootstrapped = true) ∧
      (∃ mi', find (ExtendMethod s modelName methodName fnct).state.modelRegistry modelName
          = some mi' ∧ mi'.methods.bootstrapped = true) := by
  have hc := checkMethodAndFnctType_panic_state s modelName methodName fnct mi hreg hlock
  have h1 : CreateMethod s modelName methodName fnct =
      .panic "Create/ExtendMethod must be run before BootStrap" s := by
    simp [CreateMethod, hc]
  have h2 : ExtendMethod s modelName methodName fnct =
      .panic "Create/ExtendMethod must be run before BootStrap" s := by
    simp [ExtendMethod, hc]
  refine ⟨h1, h2, ⟨mi, ?_, hlock⟩, ⟨mi, ?_, hlock⟩⟩
  · rw [h1]; exact hreg
  · rw [h2]; exact hreg

/-- Instance of C8: registration calls on the locked "Invoice" model. -/
theorem C8_locked_no_mutation_witness :
    CreateMethod lockedState "Invoice" "Total" totalFn =
        .panic "Create/ExtendMethod must be run before BootStrap" lockedState ∧
      ExtendMethod lockedState "Invoice" "Total" totalFn =
        .panic "Create/ExtendMethod must be run before BootStrap" lockedState ∧
      (∃ mi', find (CreateMethod lockedState "Invoice" "Total" totalFn).state.modelRegistry
          "Invoice" = some mi' ∧ mi'.methods.bootstrapped = true) ∧
      (∃ mi', find (ExtendMethod lockedState "Invoice" "Total" totalFn).state.modelRegistry
          "Invoice" = some mi' ∧ mi'.methods.bootstrapped = true) :=
  C8_locked_no_mutation lockedState "Invoice" "Total" totalFn
    { name := "Invoice", methods := { newMethodsCollection with bootstrapped := true } }
    (by decide) (by decide)

/-- C9 as stated fails: on the known, unlocked model "Invoice", where
"NoSuchMethod" was never created, ExtendMethod with an argument that is not a
function panics with the not-a-function message, not with the message for a
missing method. -/
theorem C9_counterexample :
    find invoiceState.modelRegistry "Invoice"
        = some { name := "Invoice", methods := newMethodsCollection } ∧
      newMethodsCollection.get "NoSuchMethod" = none ∧
      ExtendMethod invoiceState "Invoice" "NoSuchMethod" notAFunction =
        .panic "fnct parameter must be a function" invoiceState ∧
      ExtendMethod invoiceState "Invoice" "NoSuchMethod" notAFunction ≠
        .panic "Call to ExtendMethod on non existant method" invoiceState := by
  decide

/-- C9, amended: for a known model and a method name not created on it,
ExtendMethod panics for every function argument and the memory at the panic
is the memory before the call, so the method is still absent; the panic is the
one for a missing method whenever the model is unlocked and the argument is a
function. -/
theorem C9_ExtendMethod_unknown_method (s : State) (modelName methodName : String)
    (fnct : Iface) (mi : modelInfo)
    (hreg : find s.modelRegistry modelName = some mi)
    (hnone : mi.methods.get methodName = none) :
    (∃ msg, ExtendMethod s modelName methodName fnct = .panic msg s) ∧
      (∀ mi', find (ExtendMethod s modelName methodName fnct).state.modelRegistry modelName
          = some mi' → mi'.methods.get methodName = none) ∧
      (mi.methods.bootstrapped = false → fnct.typ.Kind = Kind.Func →
        ExtendMethod s modelName methodName fnct =
          .panic "Call to ExtendMethod on non existant method" s) := by
  have h1 : ∃ msg, ExtendMethod s modelName methodName fnct = .panic msg s := by
    unfold ExtendMethod
    cases hc : checkMethodAndFnctType s modelName methodName fnct with
    | panic e => exact ⟨e, rfl⟩
    | ok mi0 =>
      obtain ⟨hreg0, -, -⟩ := (checkMethodAndFnctType_ok_iff _ _ _ _ _).1 hc
      rw [hreg] at hreg0
      cases hreg0
      exact ⟨"Call to ExtendMethod on non existant method", by simp [hnone]⟩
  refine ⟨h1, ?_, ?_⟩
  · obtain ⟨msg, hmsg⟩ := h1
    intro mi' hmi'
    rw [hmsg] at hmi'
    simp only [Outcome.state] at hmi'
    rw [hreg] at hmi'
    cases hmi'
    exact hnone
  · intro hopen hk
    have hc : checkMethodAndFnctType s modelName methodName fnct = .ok mi :=
      (checkMethodAndFnctType_ok_iff _ _ _ _ _).2 ⟨hreg, hopen, hk⟩
    simp [ExtendMethod, hc, hnone]

/-- Instance of the amended C9: extending "NoSuchMethod" on "Invoice". -/
theorem C9_ExtendMethod_unknown_method_witness :
    (∃ msg, ExtendMethod invoiceState "Invoice" "NoSuchMethod" totalFn
        = .panic msg invoiceState) ∧
      (∀ mi', find (ExtendMethod invoiceState "Invoice" "NoSuchMethod" totalFn).state.modelRegistry
          "Invoice" = some mi' → mi'.methods.get "NoSuchMethod" = none) ∧
      (newMethodsCollection.bootstrapped = false → totalFn.typ.Kind = Kind.Func →
        ExtendMethod invoiceState "Invoice" "NoSuchMethod" totalFn =
          .panic "Call to ExtendMethod on non existant method" invoiceState) :=
  C9_ExtendMethod_unknown_method invoiceState "Invoice" "NoSuchMethod" totalFn
    { name := "Invoice", methods := newMethodsCollection } (by decide) (by decide)

/-- C10: in every memory reached from models with empty collections by calls
of CreateMethod and ExtendMethod, returning or not, a layer is a value of the
identity index cacheByFunc of a model exactly when it is reached from the
topLayer of a method info in the cache of that model by following
getNextLayer zero or more times. -/
theorem C10_identity_index_matches_chains (s : State) (h : Reachable s) (modelName : String)
    (mi : modelInfo) (hreg : find s.modelRegistry modelName = some mi) (l : Nat) :
    (∃ k, find mi.methods.cacheByFunc k = some l) ↔
      ∃ m methInfo t,
        mi.methods.get m = some methInfo ∧ methInfo.topLayer = some t ∧ Reaches methInfo t l :=
  (Reachable_Inv s h modelName mi hreg).consistent l

/-- Instance of C10: layer 1 of "Total" after two extensions. -/
theorem C10_identity_index_matches_chains_witness :
    (∃ k, find layeredMethods.cacheByFunc k = some 1) ↔
      ∃ m methInfo t,
        layeredMethods.get m = some methInfo ∧ methInfo.topLayer = some t ∧
          Reaches methInfo t 1 :=
  C10_identity_index_matches_chains layeredState
    (Reachable.extend surchargedState "Invoice" "Total" doubleFn
      (Reachable.extend totalState "Invoice" "Total" surchargeFn
        (Reachable.create invoiceState "Invoice" "Total" totalFn
          (Reachable.init [("Invoice", { name := "Invoice", methods := newMethodsCollection })]
            (by simp)))))
    "Invoice" { name := "Invoice", methods := layeredMethods } (by decide) 1

/-- C11: in a memory reached from empty collections, take a method that
exists and let N be the number of registration calls on it that returned
(CreateMethod once, then ExtendMethod). The walk from topLayer terminates
within N steps and meets N layers, no layer twice; N - 1 applications of
getNextLayer to topLayer give a layer whose next layer is nil, and this base
layer wraps the function of the first registration. -/
theorem C11_chain_terminates_at_base (s : State) (regs : String → String → List Iface)
    (h : Registered s regs) (modelName methodName : String) (mi : modelInfo)
    (methInfo : methodInfo)
    (hreg : find s.modelRegistry modelName = some mi)
    (hget : mi.methods.get methodName = some methInfo) :
    ∃ ls base f0,
      walk methInfo (regs modelName methodName).length methInfo.topLayer = some ls ∧
      ls.length = (regs modelName methodName).length ∧
      1 ≤ (regs modelName methodName).length ∧
      ls.Nodup ∧
      hops methInfo ((regs modelName methodName).length - 1) methInfo.topLayer = some base ∧
      methInfo.getNextLayer (some base) = none ∧
      (regs modelName methodName).getLast? = some f0 ∧
      wrapped s base = some (reflect.ValueOf f0) := by
  obtain ⟨mi0, methInfo0, ls, hreg0, hget0, hwalk, -, hwr⟩ :=
    ((Registered_HistOk s regs h) modelName mi methodName hreg).2 methInfo hget
  rw [hreg] at hreg0
  cases hreg0
  rw [hget] at hget0
  cases hget0
  have hdesc : ∀ a b, methInfo.getNextLayer (some a) = some b → b < a :=
    fun a b => Reachable_DescOk s (Registered_Reachable s regs h) modelName mi methodName
      methInfo a b hreg hget
  have hlen : ls.length = (regs modelName methodName).length := by
    have := congrArg List.length hwr
    simpa using this
  have hne : ls ≠ [] := by
    intro hnil
    rw [hnil] at hwalk
    have htop := walk_nil _ _ _ hwalk
    obtain ⟨t, ht, -⟩ :=
      (Reachable_Inv s (Registered_Reachable s regs h) modelName mi hreg).tops methodName
        methInfo hget
    rw [ht] at htop
    cases htop
  have hpos : 1 ≤ (regs modelName methodName).length := by
    rw [← hlen]
    exact List.length_pos.2 hne
  obtain ⟨base, hlast, hhops, hnone⟩ := walk_last methInfo _ _ ls hwalk hne
  have hlast2 := congrArg List.getLast? hwr
  rw [List.getLast?_map, List.getLast?_map, List.getLast?_map, hlast] at hlast2
  cases hf : (regs modelName methodName).getLast? with
  | none =>
    rw [hf] at hlast2
    simp at hlast2
  | some f0 =>
    rw [hf] at hlast2
    simp only [Option.map_some', Option.some.injEq] at hlast2
    refine ⟨ls, base, f0, hwalk, hlen, hpos, walk_nodup methInfo hdesc _ _ ls hwalk, ?_, hnone,
      rfl, hlast2⟩
    rw [← hlen]
    exact hhops

/-- Instance of C11: "Total" after CreateMethod and two ExtendMethod calls. -/
theorem C11_chain_terminates_at_base_witness :
    ∃ ls base f0,
      walk layeredTotal (layeredRegs "Invoice" "Total").length layeredTotal.topLayer = some ls ∧
      ls.length = (layeredRegs "Invoice" "Total").length ∧
      1 ≤ (layeredRegs "Invoice" "Total").length ∧
      ls.Nodup ∧
      hops layeredTotal ((layeredRegs "Invoice" "Total").length - 1) layeredTotal.topLayer
        = some base ∧
      layeredTotal.getNextLayer (some base) = none ∧
      (layeredRegs "Invoice" "Total").getLast? = some f0 ∧
      wrapped layeredState base = some (reflect.ValueOf f0) :=
  C11_chain_terminates_at_base layeredState layeredRegs
    (Registered.extend surchargedState _ "Invoice" "Total" doubleFn
      (Registered.extend totalState _ "Invoice" "Total" surchargeFn
        (Registered.create invoiceState _ "Invoice" "Total" totalFn
          (Registered.init [("Invoice", { name := "Invoice", methods := newMethodsCollection })]
            (by simp)))))
    "Invoice" "Total" { name := "Invoice", methods := layeredMethods } layeredTotal
    (by decide) (by decide)

/-- C12 fails on the code: "Total" was created with func(RecordCollection) int;
ExtendMethod returns and pushes a layer for func(int) int, whose first
parameter does not implement RecordSet (CreateMethod refuses this very
function), and for func() int, which has no parameter at all. -/
theorem C12_ExtendMethod_skips_first_parameter_check :
    (∃ msg, CreateMethod invoiceState "Invoice" "Total" badFirstFn = .panic msg invoiceState) ∧
      (ExtendMethod totalState "Invoice" "Total" badFirstFn).isOk = true ∧
      (∃ mi methInfo,
        find (ExtendMethod totalState "Invoice" "Total" badFirstFn).state.modelRegistry "Invoice"
          = some mi ∧
        mi.methods.get "Total" = some methInfo ∧
        methInfo.topLayer = some 1 ∧ methInfo.nextLayer = [(1, some 0)] ∧
        wrapped (ExtendMethod totalState "Invoice" "Total" badFirstFn).state 1
          = some (reflect.ValueOf badFirstFn)) ∧
      (ExtendMethod totalState "Invoice" "Total" noParamFn).isOk = true ∧
      (∃ mi methInfo,
        find (ExtendMethod totalState "Invoice" "Total" noParamFn).state.modelRegistry "Invoice"
          = some mi ∧
        mi.methods.get "Total" = some methInfo ∧
        methInfo.topLayer = some 1 ∧ methInfo.nextLayer = [(1, some 0)]) := by
  refine ⟨⟨_, by rfl⟩, by decide, ⟨_, _, by rfl, by rfl, by decide, by decide, by decide⟩,
    by decide, ⟨_, _, by rfl, by rfl, by decide, by decide⟩⟩

/-- C13: on a known unlocked model and for an unused method name, CreateMethod
panics when the argument is not a function, is a function without parameters,
or is a function whose first parameter type does not implement RecordSet; the
memory at the panic is the memory before the call, so the name is still
unused and the identity index is the same. -/
theorem C13_CreateMethod_rejects_invalid_function (s : State) (modelName methodName : String)
    (fnct : Iface) (mi : modelInfo)
    (hreg : find s.modelRegistry modelName = some mi)
    (_hopen : mi.methods.bootstrapped = false)
    (hnew : mi.methods.get methodName = none)
    (hbad : fnct.typ.Kind ≠ Kind.Func ∨ (∃ outs v, fnct.typ = .func [] outs v) ∨
      ∃ t0 ins outs v, fnct.typ = .func (t0 :: ins) outs v ∧ t0.implementsRecordSet = false) :
    (∃ msg, CreateMethod s modelName methodName fnct = .panic msg s) ∧
      ∀ mi', find (CreateMethod s modelName methodName fnct).state.modelRegistry modelName
          = some mi' →
        mi'.methods.get methodName = none ∧
          mi'.methods.cacheByFunc = mi.methods.cacheByFunc := by
  have h1 : ∃ msg, CreateMethod s modelName methodName fnct = .panic msg s := by
    cases hx : CreateMethod s modelName methodName fnct with
    | panic e s1 =>
      rw [CreateMethod_panic_state _ _ _ _ _ _ hx]
      exact ⟨e, rfl⟩
    | ok s' =>
      obtain ⟨mi0, t0, ins, outs, v, -, -, -, hvt, hrs, -⟩ := (CreateMethod_ok_iff _ _ _ _ _).1 hx
      rcases hbad with hk | ⟨outs', v', hnil⟩ | ⟨t0', ins', outs', v', hty, hno⟩
      · exact absurd (by simp [hvt, GoType.Kind]) hk
      · rw [hvt] at hnil
        cases hnil
      · rw [hvt] at hty
        cases hty
        rw [hrs] at hno
        cases hno
  refine ⟨h1, ?_⟩
  obtain ⟨msg, hmsg⟩ := h1
  intro mi' hmi'
  rw [hmsg] at hmi'
  simp only [Outcome.state] at hmi'
  rw [hreg] at hmi'
  cases hmi'
  exact ⟨hnew, rfl⟩

/-- Instance of C13: creating "Total" on "Invoice" with a func(int) int. -/
theorem C13_CreateMethod_rejects_invalid_function_witness :
    (∃ msg, CreateMethod invoiceState "Invoice" "Total" badFirstFn = .panic msg invoiceState) ∧
      ∀ mi', find (CreateMethod invoiceState "Invoice" "Total" badFirstFn).state.modelRegistry
          "Invoice" = some mi' →
        mi'.methods.get "Total" = none ∧
          mi'.methods.cacheByFunc = newMethodsCollection.cacheByFunc :=
  C13_CreateMethod_rejects_invalid_function invoiceState "Invoice" "Total" badFirstFn
    { name := "Invoice", methods := newMethodsCollection } (by decide) (by decide) (by decide)
    (Or.inr (Or.inr ⟨intTy, [], [intTy], false, by decide, by decide⟩))

/-- C14 as stated fails, in four ways. For func(int) int, with one declared
parameter and no further argument, the adapter panics in Field(0) and never
calls the function. For the variadic func(RecordCollection, ...int) int and an
argument of the type []int of its last parameter, Call refuses the argument.
For func(RecordCollection, error) int and the nil interface value as the
error argument, Call refuses the zero Value. For the nil function of type
func(RecordCollection) int, Call panics. In no case is the function called. -/
theorem C14_counterexample :
    methodLayerFunction exampleEnv (reflect.ValueOf badFirstFn) 7 [] =
        { calls := [],
          res := .panic "reflect: call of reflect.Value.Field on non-struct Value" } ∧
      methodLayerFunction exampleEnv (reflect.ValueOf variadicFn) 7
          [.slice intSliceTy [.data intTy 1]] =
        { calls := [],
          res := .panic "reflect: cannot use argument of another type in Call" } ∧
      methodLayerFunction exampleEnv (reflect.ValueOf errFn) 7 [.nilIface] =
        { calls := [], res := .panic "reflect: Call using zero Value argument" } ∧
      methodLayerFunction exampleEnv (reflect.ValueOf nilFn) 7 [] =
        { calls := [], res := .panic "reflect.Value.Call: call of nil function" } :=
  ⟨rfl, rfl, rfl, rfl⟩

/-- C14, amended: for a function that is not nil and not variadic, whose first
parameter type is RecordCollection or a struct whose field 0 is exported and
can hold a RecordCollection, and for arguments as many as the further
parameters, none of them the nil interface value, each of a type assignable
to the parameter at its position, the adapter calls the function exactly
once, with the handle (or the zero value of the first parameter type with
field 0 set to the handle) followed by the arguments in their order, and it
returns the first result of the function, nil when the function has no
result, and panics when the function does. -/
theorem C14_adapter_calls_wrapped_function (env : Env) (fnctVal : Value) (t0 : Ty)
    (ins outs : List Ty) (rc : Nat) (args : List GoVal)
    (hty : fnctVal.typ = .func (t0 :: ins) outs false)
    (hnn : fnctVal.ptr ≠ 0)
    (hfirst : Conforms env t0)
    (hargs : ArgsMatch env args ins) :
    (methodLayerFunction env fnctVal rc args).calls =
        [(fnctVal,
          (if t0 = RecordCollection then GoVal.record rc
            else GoVal.withField0 t0 (GoVal.record rc)) :: args)] ∧
      (methodLayerFunction env fnctVal rc args).res =
        match env.run fnctVal
          ((if t0 = RecordCollection then GoVal.record rc
            else GoVal.withField0 t0 (GoVal.record rc)) :: args) with
        | .panic e => .panic e
        | .ok [] => .ok none
        | .ok (r :: _) => .ok (some r) := by
  rw [methodLayerFunction_of_match env fnctVal t0 ins outs rc args hty hnn hfirst hargs]
  refine ⟨rfl, ?_⟩
  simp only [firstArg]
  cases env.run fnctVal
      ((if t0 = RecordCollection then GoVal.record rc
        else GoVal.withField0 t0 (GoVal.record rc)) :: args) with
  | panic e => rfl
  | ok res =>
    cases res with
    | nil => rfl
    | cons r rs => rfl

/-- Instance of the amended C14: func(InvoiceSet, string) int called with a
handle and one string. -/
theorem C14_adapter_calls_wrapped_function_witness :
    (methodLayerFunction exampleEnv (reflect.ValueOf wrapperFn) 7 [.data stringTy 3]).calls =
        [(reflect.ValueOf wrapperFn,
          (if invoiceSetTy = RecordCollection then GoVal.record 7
            else GoVal.withField0 invoiceSetTy (GoVal.record 7)) :: [.data stringTy 3])] ∧
      (methodLayerFunction exampleEnv (reflect.ValueOf wrapperFn) 7 [.data stringTy 3]).res =
        match exampleEnv.run (reflect.ValueOf wrapperFn)
          ((if invoiceSetTy = RecordCollection then GoVal.record 7
            else GoVal.withField0 invoiceSetTy (GoVal.record 7)) :: [.data stringTy 3]) with
        | .panic e => .panic e
        | .ok [] => .ok none
        | .ok (r :: _) => .ok (some r) :=
  C14_adapter_calls_wrapped_function exampleEnv (reflect.ValueOf wrapperFn) invoiceSetTy
    [stringTy] [intTy] 7 [.data stringTy 3] rfl (by decide)
    (Or.inr ⟨RecordCollection, by decide, by decide⟩)
    (List.Forall₂.cons ⟨stringTy, rfl, by decide⟩ List.Forall₂.nil)

/-- C15 fails on the code: in the scenario the base layer alone returns the
amount b, but once surchargeFn is on top, invoking the top layer panics for
every b: getByFunc given the reference to surchargeFn finds no layer, so the
layer cannot reach the one below it. The same holds after doubleFn is added. -/
theorem C15_delegation_by_identity_lookup_panics (b fuel rc : Nat) :
    (invokeLayer (scenarioEnv totalState b (fuel + 1)) totalState 0 rc []).res =
        .ok (some (.data intTy b)) ∧
      (∃ mi methInfo, find surchargedState.modelRegistry "Invoice" = some mi ∧
        mi.methods.get "Total" = some methInfo ∧ methInfo.topLayer = some 1 ∧
        mi.methods.getByFunc surchargeFnPtr = .ok none) ∧
      (invokeLayer (scenarioEnv surchargedState b (fuel + 1)) surchargedState 1 rc []).res =
        .panic "invalid memory address or nil pointer dereference" ∧
      (∃ mi methInfo, find layeredState.modelRegistry "Invoice" = some mi ∧
        mi.methods.get "Total" = some methInfo ∧ methInfo.topLayer = some 2 ∧
        mi.methods.getByFunc doubleFnPtr = .ok none) ∧
      (invokeLayer (scenarioEnv layeredState b (fuel + 1)) layeredState 2 rc []).res =
        .panic "invalid memory address or nil pointer dereference" :=
  ⟨rfl, ⟨_, _, rfl, rfl, rfl, rfl⟩, rfl, ⟨_, _, rfl, rfl, rfl, rfl⟩, rfl⟩

/-- C16 fails on the code: func(RecordSet) int has a first parameter of the
interface type RecordSet, which implements RecordSet; CreateMethod accepts it
and makes its layer the top of "Total"; invoking the adapter of that layer
with a handle and no further argument panics in Field(0), since the type is
not a struct, and the function is never called. -/
theorem C16_accepted_function_panics_on_invocation :
    ifaceFn.typ = .func [recordSetTy] [intTy] false ∧
      recordSetTy.implementsRecordSet = true ∧
      exampleEnv.field0 recordSetTy = .notStruct ∧
      CreateMethod invoiceState "Invoice" "Total" ifaceFn = .ok ifaceState ∧
      (∃ mi methInfo, find ifaceState.modelRegistry "Invoice" = some mi ∧
        mi.methods.get "Total" = some methInfo ∧ methInfo.topLayer = some 0) ∧
      wrapped ifaceState 0 = some (reflect.ValueOf ifaceFn) ∧
      invokeLayer exampleEnv ifaceState 0 7 [] =
        { calls := [],
          res := .panic "reflect: call of reflect.Value.Field on non-struct Value" } :=
  ⟨rfl, rfl, rfl, by decide, ⟨_, _, rfl, rfl, rfl⟩, by decide, rfl⟩

/-- C17: after a returning CreateMethod(model, m, f0) and any sequence of
returning ExtendMethod calls on m, the method info still has the type of f0
as methodType and m as name, and a further ExtendMethod returns exactly when
the new function passes the parameter and result tests against the type of
f0, whatever the types of the layers added in between. -/
theorem C17_signature_fixed_by_base_layer (s0 s1 s' : State) (modelName methodName : String)
    (f0 : Iface) (fs : List Iface)
    (hc : CreateMethod s0 modelName methodName f0 = .ok s1)
    (he : extendAll s1 modelName methodName fs = .ok s') :
    ∃ mi methInfo,
      find s'.modelRegistry modelName = some mi ∧
      mi.methods.get methodName = some methInfo ∧
      methInfo.methodType = f0.typ ∧ methInfo.name = methodName ∧
      ∀ (f : Iface) (s'' : State),
        ExtendMethod s' modelName methodName f = .ok s'' ↔
          ∃ ins outs v vins vouts vv,
            f0.typ = .func ins outs v ∧ f.typ = .func vins vouts vv ∧
            checkIns ins vins = none ∧ checkOut outs vouts = none ∧
            s'' = methodInfo.addMethodLayer s' modelName methodName mi methInfo
              (reflect.ValueOf f) := by
  obtain ⟨mi, methInfo, hreg, hopen, hget, hmt, hname⟩ :=
    SigIs_extendAll modelName methodName f0.typ fs s1 s'
      (SigIs_create s0 s1 modelName methodName f0 hc) he
  refine ⟨mi, methInfo, hreg, hget, hmt, hname, ?_⟩
  intro f s''
  rw [ExtendMethod_ok_iff]
  constructor
  · rintro ⟨mi0, methInfo0, ins, outs, v, vins, vouts, vv, hreg0, -, hget0, hmt0, hvt, hi, ho,
      rfl⟩
    rw [hreg] at hreg0
    cases hreg0
    rw [hget] at hget0
    cases hget0
    rw [hmt] at hmt0
    exact ⟨ins, outs, v, vins, vouts, vv, hmt0, hvt, hi, ho, rfl⟩
  · rintro ⟨ins, outs, v, vins, vouts, vv, hf0, hvt, hi, ho, rfl⟩
    exact ⟨mi, methInfo, ins, outs, v, vins, vouts, vv, hreg, hopen, hget, hmt.trans hf0, hvt,
      hi, ho, rfl⟩

/-- Instance of C17: "Total" created with totalFn and extended with a function
that has one more parameter; the signature is still that of totalFn. -/
theorem C17_signature_fixed_by_base_layer_witness :
    ∃ mi methInfo,
      find (extendAll totalState "Invoice" "Total" [extraArgFn]).state.modelRegistry "Invoice"
        = some mi ∧
      mi.methods.get "Total" = some methInfo ∧
      methInfo.methodType = totalFn.typ ∧ methInfo.name = "Total" ∧
      ∀ (f : Iface) (s'' : State),
        ExtendMethod (extendAll totalState "Invoice" "Total" [extraArgFn]).state "Invoice"
            "Total" f = .ok s'' ↔
          ∃ ins outs v vins vouts vv,
            totalFn.typ = .func ins outs v ∧ f.typ = .func vins vouts vv ∧
            checkIns ins vins = none ∧ checkOut outs vouts = none ∧
            s'' = methodInfo.addMethodLayer
              (extendAll totalState "Invoice" "Total" [extraArgFn]).state "Invoice" "Total"
              mi methInfo (reflect.ValueOf f) :=
  C17_signature_fixed_by_base_layer invoiceState totalState
    (extendAll totalState "Invoice" "Total" [extraArgFn]).state "Invoice" "Total" totalFn
    [extraArgFn] (by decide) (by decide)

/-- C18: what a returning ExtendMethod(model, m, fn) changes in a reachable
memory. Every layer that existed keeps its content, its next layer and its
entry in the identity index; every other method of the model and every other
model is as before; the method names of the cache and the lock flag are as
before. The changes are: one layer and one closure are allocated, m gets the
new layer as topLayer and one new entry in nextLayer (new layer to old top),
and the identity index gets one new entry (new closure to new layer). -/
theorem C18_ExtendMethod_frame (s s' : State) (modelName methodName : String) (fnct : Iface)
    (hr : Reachable s)
    (hok : ExtendMethod s modelName methodName fnct = .ok s') :
    ∃ mi methInfo mi' methInfo' ml key,
      find s.modelRegistry modelName = some mi ∧
      mi.methods.get methodName = some methInfo ∧
      find s'.modelRegistry modelName = some mi' ∧
      mi'.methods.get methodName = some methInfo' ∧
      (∀ q, q < s.layers.length →
        methInfo'.getNextLayer (some q) = methInfo.getNextLayer (some q)) ∧
      (∀ k l, find mi.methods.cacheByFunc k = some l →
        find mi'.methods.cacheByFunc k = some l) ∧
      (∀ m', m' ≠ methodName → mi'.methods.get m' = mi.methods.get m') ∧
      mi'.methods.cache.map Prod.fst = mi.methods.cache.map Prod.fst ∧
      mi'.methods.bootstrapped = mi.methods.bootstrapped ∧
      mi'.name = mi.name ∧
      (∀ M', M' ≠ modelName → find s'.modelRegistry M' = find s.modelRegistry M') ∧
      s'.modelRegistry.map Prod.fst = s.modelRegistry.map Prod.fst ∧
      s'.layers = s.layers ++ [ml] ∧
      s'.closures = s.closures ++ [reflect.ValueOf fnct] ∧
      find methInfo.nextLayer s.layers.length = none ∧
      methInfo' =
        { methInfo with
          topLayer := some s.layers.length,
          nextLayer := methInfo.nextLayer ++ [(s.layers.length, methInfo.topLayer)] } ∧
      find mi.methods.cacheByFunc key = none ∧
      mi'.methods.cacheByFunc = mi.methods.cacheByFunc ++ [(key, s.layers.length)] := by
  obtain ⟨mi, methInfo, ins, outs, v, vins, vouts, vv, hreg, -, hget, -, -, -, -, rfl⟩ :=
    (ExtendMethod_ok_iff _ _ _ _ _).1 hok
  have hinv := Reachable_Inv s hr modelName mi hreg
  have hkeys := Reachable_NextKeysOk s hr
  have hnextnone : find methInfo.nextLayer s.layers.length = none := by
    cases hf : find methInfo.nextLayer s.layers.length with
    | none => rfl
    | some b =>
      have hlt := hkeys modelName mi methodName methInfo _ b hreg hget hf
      exact absurd hlt (Nat.lt_irrefl _)
  have hkeynone : find mi.methods.cacheByFunc
      { typ := methodLayerFunctionType, ptr := s.closures.length, flagAddr := false } = none := by
    cases hf : find mi.methods.cacheByFunc
        { typ := methodLayerFunctionType, ptr := s.closures.length, flagAddr := false } with
    | none => rfl
    | some l =>
      have hlt := hinv.keys _ l hf
      exact absurd hlt (Nat.lt_irrefl _)
  refine ⟨mi, methInfo, _, _,
    { funcValue := { typ := methodLayerFunctionType, ptr := s.closures.length, flagAddr := false },
      methInfo := (mi.name, methInfo.name) },
    { typ := methodLayerFunctionType, ptr := s.closures.length, flagAddr := false },
    hreg, hget, find_put_self _ _ _, find_put_self _ _ _, ?_, ?_, ?_, ?_, rfl, rfl, ?_, ?_,
    rfl, rfl, hnextnone, ?_, hkeynone, ?_⟩
  · intro q hq
    simp [methodInfo.getNextLayer, find_put_ne _ _ _ _ (Nat.ne_of_lt hq)]
  · intro k l hk
    have hne : k ≠ ⟨methodLayerFunctionType, s.closures.length, false⟩ := by
      intro e
      rw [e, hkeynone] at hk
      cases hk
    simp only [methodsCollection.addLayer, wrapFunctionForMethodLayer]
    rw [find_put_ne _ _ _ _ hne]
    exact hk
  · intro m' hm'
    simp only [methodsCollection.get, methodsCollection.addLayer]
    exact find_put_ne _ _ _ _ hm'
  · simp only [methodsCollection.addLayer]
    exact put_keys _ _ _ _ hget
  · intro M' hM'
    exact find_put_ne _ _ _ _ hM'
  · exact put_keys _ _ _ _ hreg
  · rw [put_of_find_none _ _ _ hnextnone]
  · simp only [methodsCollection.addLayer, wrapFunctionForMethodLayer]
    exact put_of_find_none _ _ _ hkeynone

/-- Instance of C18: the second extension of "Total". -/
theorem C18_ExtendMethod_frame_witness :
    ∃ mi methInfo mi' methInfo' ml key,
      find surchargedState.modelRegistry "Invoice" = some mi ∧
      mi.methods.get "Total" = some methInfo ∧
      find layeredState.modelRegistry "Invoice" = some mi' ∧
      mi'.methods.get "Total" = some methInfo' ∧
      (∀ q, q < surchargedState.layers.length →
        methInfo'.getNextLayer (some q) = methInfo.getNextLayer (some q)) ∧
      (∀ k l, find mi.methods.cacheByFunc k = some l →
        find mi'.methods.cacheByFunc k = some l) ∧
      (∀ m', m' ≠ "Total" → mi'.methods.get m' = mi.methods.get m') ∧
      mi'.methods.cache.map Prod.fst = mi.methods.cache.map Prod.fst ∧
      mi'.methods.bootstrapped = mi.methods.bootstrapped ∧
      mi'.name = mi.name ∧
      (∀ M', M' ≠ "Invoice" →
        find layeredState.modelRegistry M' = find surchargedState.modelRegistry M') ∧
      layeredState.modelRegistry.map Prod.fst = surchargedState.modelRegistry.map Prod.fst ∧
      layeredState.layers = surchargedState.layers ++ [ml] ∧
      layeredState.closures = surchargedState.closures ++ [reflect.ValueOf doubleFn] ∧
      find methInfo.nextLayer surchargedState.layers.length = none ∧
      methInfo' =
        { methInfo with
          topLayer := some surchargedState.layers.length,
          nextLayer := methInfo.nextLayer ++ [(surchargedState.layers.length, methInfo.topLayer)] } ∧
      find mi.methods.cacheByFunc key = none ∧
      mi'.methods.cacheByFunc = mi.methods.cacheByFunc ++ [(key, surchargedState.layers.length)] :=
  C18_ExtendMethod_frame surchargedState layeredState "Invoice" "Total" doubleFn
    (Reachable.extend totalState "Invoice" "Total" surchargeFn
      (Reachable.create invoiceState "Invoice" "Total" totalFn
        (Reachable.init [("Invoice", { name := "Invoice", methods := newMethodsCollection })]
          (by simp))))
    (by decide)

/-- C19: the order in which CreateMethod and ExtendMethod report failures. An
unknown model is reported whatever the other arguments are; on a known model
a locked collection is reported whatever the function argument and the method
name are; on an unlocked model an argument that is not a function is reported
whether or not the method exists; and for a function the existence test
(duplicate name for CreateMethod, missing method for ExtendMethod) is reported
whatever the parameter and result types of the function are. Every one of
these panics leaves the memory as it was. -/
theorem C19_failure_precedence (s : State) (modelName methodName : String) (fnct : Iface) :
    (find s.modelRegistry modelName = none →
        CreateMethod s modelName methodName fnct = .panic "Unknown model" s ∧
        ExtendMethod s modelName methodName fnct = .panic "Unknown model" s) ∧
      (∀ mi, find s.modelRegistry modelName = some mi → mi.methods.bootstrapped = true →
        CreateMethod s modelName methodName fnct =
          .panic "Create/ExtendMethod must be run before BootStrap" s ∧
        ExtendMethod s modelName methodName fnct =
          .panic "Create/ExtendMethod must be run before BootStrap" s) ∧
      (∀ mi, find s.modelRegistry modelName = some mi → mi.methods.bootstrapped = false →
        fnct.typ.Kind ≠ Kind.Func →
        CreateMethod s modelName methodName fnct = .panic "fnct parameter must be a function" s ∧
        ExtendMethod s modelName methodName fnct =
          .panic "fnct parameter must be a function" s) ∧
      (∀ mi methInfo, find s.modelRegistry modelName = some mi →
        mi.methods.bootstrapped = false → fnct.typ.Kind = Kind.Func →
        mi.methods.get methodName = some methInfo →
        CreateMethod s modelName methodName fnct =
          .panic "Call to CreateMethod with an existing method name" s) ∧
      (∀ mi, find s.modelRegistry modelName = some mi →
        mi.methods.bootstrapped = false → fnct.typ.Kind = Kind.Func →
        mi.methods.get methodName = none →
        ExtendMethod s modelName methodName fnct =
          .panic "Call to ExtendMethod on non existant method" s) := by
  refine ⟨?_, ?_, ?_, ?_, ?_⟩
  · intro hreg
    have hc : checkMethodAndFnctType s modelName methodName fnct = .panic "Unknown model" := by
      simp [checkMethodAndFnctType, hreg]
    exact ⟨by simp [CreateMethod, hc], by simp [ExtendMethod, hc]⟩
  · intro mi hreg hlock
    have hc := checkMethodAndFnctType_panic_state s modelName methodName fnct mi hreg hlock
    exact ⟨by simp [CreateMethod, hc], by simp [ExtendMethod, hc]⟩
  · intro mi hreg hopen hk
    have hc : checkMethodAndFnctType s modelName methodName fnct =
        .panic "fnct parameter must be a function" := by
      simp [checkMethodAndFnctType, hreg, hopen, reflect.ValueOf, hk]
    exact ⟨by simp [CreateMethod, hc], by simp [ExtendMethod, hc]⟩
  · intro mi methInfo hreg hopen hk hget
    have hc : checkMethodAndFnctType s modelName methodName fnct = .ok mi :=
      (checkMethodAndFnctType_ok_iff _ _ _ _ _).2 ⟨hreg, hopen, hk⟩
    simp [CreateMethod, hc, hget]
  · intro mi hreg hopen hk hget
    have hc : checkMethodAndFnctType s modelName methodName fnct = .ok mi :=
      (checkMethodAndFnctType_ok_iff _ _ _ _ _).2 ⟨hreg, hopen, hk⟩
    simp [ExtendMethod, hc, hget]

/-- Instances of C19: an unknown model with a value that is not a function; a
locked model with a value that is not a function; an unlocked model, a value
that is not a function and an existing method; an existing method and a
function whose first parameter is invalid; a missing method and a function
whose first parameter is invalid. -/
theorem C19_failure_precedence_witness :
    (CreateMethod emptyState "Invoice" "Total" notAFunction = .panic "Unknown model" emptyState ∧
        ExtendMethod emptyState "Invoice" "Total" notAFunction
          = .panic "Unknown model" emptyState) ∧
      (CreateMethod lockedState "Invoice" "Total" notAFunction =
          .panic "Create/ExtendMethod must be run before BootStrap" lockedState ∧
        ExtendMethod lockedState "Invoice" "Total" notAFunction =
          .panic "Create/ExtendMethod must be run before BootStrap" lockedState) ∧
      (CreateMethod totalState "Invoice" "Total" notAFunction =
          .panic "fnct parameter must be a function" totalState ∧
        ExtendMethod totalState "Invoice" "Total" notAFunction =
          .panic "fnct parameter must be a function" totalState) ∧
      CreateMethod totalState "Invoice" "Total" badFirstFn =
        .panic "Call to CreateMethod with an existing method name" totalState ∧
      ExtendMethod invoiceState "Invoice" "Total" badFirstFn =
        .panic "Call to ExtendMethod on non existant method" invoiceState :=
  ⟨(C19_failure_precedence emptyState "Invoice" "Total" notAFunction).1 (by decide),
    (C19_failure_precedence lockedState "Invoice" "Total" notAFunction).2.1
      { name := "Invoice", methods := { newMethodsCollection with bootstrapped := true } }
      (by decide) (by decide),
    (C19_failure_precedence totalState "Invoice" "Total" notAFunction).2.2.1 _ (by rfl)
      (by decide) (by decide),
    (C19_failure_precedence totalState "Invoice" "Total" badFirstFn).2.2.2.1 _ _ (by rfl)
      (by decide) (by decide) (by rfl),
    (C19_failure_precedence invoiceState "Invoice" "Total" badFirstFn).2.2.2.2
      { name := "Invoice", methods := newMethodsCollection } (by decide) (by decide) (by decide)
      (by decide)⟩

end Yep
